import Mathlib

/-!
# Verification of the SERP clustering-and-classification core

A shallow embedding, in Lean 4, of the clustering and action-bucketing core of
the query fan-out analysis application:

* `lib/normalize.ts` — URL canonicalization, text similarity, near-duplicate
  filtering, intersection counting;
* `lib/cluster.ts` — overlap matrix, similarity graph, connected components,
  exemplar selection, the `clusterBySerpSimilarity` entry point and cluster
  lookup helpers;
* `lib/bucketing.ts` — the per-query action classifier `determineAction` and
  the `getActionSummary` aggregator;
* `lib/types.ts` — the data model (`SerpResult`, `Cluster`, `Action`, …).

JavaScript numbers are modelled as `Nat` (URL-overlap counts, positions) and
`ℚ` (thresholds, similarity scores).  Asynchronous collaborator results
(the semantic-similarity score and the improvement-suggestion text awaited
inside `determineAction`) are passed as explicit arguments.  Functions that
throw are modelled in `Except`.  JavaScript `Map`/`Set` values are modelled
as insertion-ordered lists, and plain objects with dynamic keys as
insertion-ordered key/value lists.
-/

namespace QueryFanout

/-- `AIOverview` enum from `lib/types.ts`: `'present' | 'absent' | 'unknown'`. -/
inductive AIOverview where
  | present
  | absent
  | unknown
deriving DecidableEq

/-- `OrganicResult` from `lib/types.ts` (the optional `snippet` field is never
read by the core and is omitted). -/
structure OrganicResult where
  position : Nat
  url : String
  title : String
deriving DecidableEq

/-- The `firstMatch` payload of a `SerpResult`. -/
structure FirstMatch where
  position : Nat
  url : String
deriving DecidableEq

/-- `SerpResult` from `lib/types.ts` (the optional `aiOverviewData` field is
never read by the core and is omitted). -/
structure SerpResult where
  q : String
  top10 : List OrganicResult
  aiOverview : AIOverview
  targetPageOnPage1 : Bool
  sameDomainOnPage1 : Bool
  firstMatch : Option FirstMatch := none
deriving DecidableEq

/-- `Cluster` from `lib/types.ts`. -/
structure Cluster where
  id : String
  queries : List String
  exemplar : String
  overlapMatrix : List (List Nat)
deriving DecidableEq

/-!
## URL canonicalization (`lib/normalize.ts`, `canonicalizeForSerpComparison`)

The source calls the JavaScript `URL` constructor.  We model that platform
parser for well-formed absolute `http(s)` URLs without user-info or port:
the hostname is everything after the scheme up to the first `/`, `?` or `#`,
and the pathname runs from there up to the first `?` or `#` (defaulting to
`/` when empty).  A string that does not start with a recognized scheme makes
the constructor throw; the source catches that and returns the input
unchanged, which the model mirrors.  Strings are processed as their character
lists so that all definitions evaluate inside the kernel.
-/

/-- ASCII lowercasing of one character.  JavaScript `toLowerCase` agrees with
this on the ASCII hostnames compared here. -/
def lowerChar (c : Char) : Char :=
  if c.val ≥ 65 ∧ c.val ≤ 90 then Char.ofNat (c.toNat + 32) else c

/-- `canonicalizeForSerpComparison(url)` from `lib/normalize.ts`: lowercase the
host, strip a leading `www.`, keep only host+path, strip one trailing slash
from a non-root path.  Unparsable URLs are returned unchanged. -/
def canonicalizeForSerpComparison (url : String) : String :=
  let chars := url.data
  if ("https://".data).isPrefixOf chars ∨ ("http://".data).isPrefixOf chars then
    let rest := if ("https://".data).isPrefixOf chars then chars.drop 8 else chars.drop 7
    let rawHost := rest.takeWhile (fun c => !(c == '/' || c == '?' || c == '#'))
    let afterHost := rest.drop rawHost.length
    let rawPath := afterHost.takeWhile (fun c => !(c == '?' || c == '#'))
    let host0 := rawHost.map lowerChar
    let host := if ("www.".data).isPrefixOf host0 then host0.drop 4 else host0
    let path0 := if rawPath = [] then ['/'] else rawPath
    let path := if path0.getLast? = some '/' ∧ path0.length > 1 then path0.dropLast else path0
    ⟨host ++ path⟩
  else
    url

/-- `intersectionSize(arr1, arr2)` from `lib/normalize.ts`: build a `Set` from
`arr1` and count the elements of `arr2` (with multiplicity) found in it. -/
def intersectionSize {α : Type} [DecidableEq α] (arr1 arr2 : List α) : Nat :=
  (arr2.filter (fun item => decide (item ∈ arr1))).length

/-- `computeSerpOverlap(serp1, serp2)` from `lib/cluster.ts`. -/
def computeSerpOverlap (serp1 serp2 : SerpResult) : Nat :=
  let urls1 := serp1.top10.map (fun r => canonicalizeForSerpComparison r.url)
  let urls2 := serp2.top10.map (fun r => canonicalizeForSerpComparison r.url)
  intersectionSize urls1 urls2

/-- `matrix[i]?.[j]` — reading entry `(i, j)` of a row-list matrix. -/
def matrixEntry (m : List (List Nat)) (i j : Nat) : Option Nat :=
  m[i]?.bind (fun row => row[j]?)

/-- `buildOverlapMatrix(serpResults)` from `lib/cluster.ts`: `n × n` matrix,
`10` on the diagonal, `computeSerpOverlap` off the diagonal (cells stay at the
`fill(0)` default when an index is out of range, which cannot happen for
`i, j < n`). -/
def buildOverlapMatrix (serpResults : List SerpResult) : List (List Nat) :=
  let n := serpResults.length
  (List.range n).map (fun i => (List.range n).map (fun j =>
    if i = j then 10
    else
      match serpResults[i]?, serpResults[j]? with
      | some serp1, some serp2 => computeSerpOverlap serp1 serp2
      | _, _ => 0))

/-- The canonicalized top-10 URL list of one SERP result. -/
def canonUrls (s : SerpResult) : List String :=
  s.top10.map (fun r => canonicalizeForSerpComparison r.url)

theorem buildOverlapMatrix_length (serpResults : List SerpResult) :
    (buildOverlapMatrix serpResults).length = serpResults.length := by
  simp [buildOverlapMatrix]

theorem matrixEntry_buildOverlapMatrix (serpResults : List SerpResult) (i j : Nat)
    (hi : i < serpResults.length) (hj : j < serpResults.length) :
    matrixEntry (buildOverlapMatrix serpResults) i j =
      some (if i = j then 10
            else intersectionSize (canonUrls (serpResults.get ⟨i, hi⟩))
                   (canonUrls (serpResults.get ⟨j, hj⟩))) := by
  unfold matrixEntry buildOverlapMatrix
  rw [List.getElem?_map, List.getElem?_range hi]
  dsimp only [Option.map_some', Option.some_bind]
  rw [List.getElem?_map, List.getElem?_range hj]
  dsimp only [Option.map_some']
  by_cases h : i = j
  · simp [h]
  · simp only [h, if_false]
    rw [List.getElem?_eq_getElem hi, List.getElem?_eq_getElem hj]
    simp [computeSerpOverlap, canonUrls]

/-- When the second list has no duplicates, `intersectionSize` is the size of
the set intersection.  (In general it counts elements of `arr2` with
multiplicity, so duplicates in `arr2` inflate it.) -/
theorem intersectionSize_eq_card_inter {α : Type} [DecidableEq α] (arr1 arr2 : List α)
    (h2 : arr2.Nodup) :
    intersectionSize arr1 arr2 = (arr2.toFinset ∩ arr1.toFinset).card := by
  unfold intersectionSize
  have hnd : (arr2.filter (fun item => decide (item ∈ arr1))).Nodup := h2.filter _
  rw [← List.toFinset_card_of_nodup hnd, List.toFinset_filter]
  congr 1
  ext x
  simp [Finset.mem_filter, List.mem_toFinset]

/-- First SERP result of the C3 counterexample: a single organic URL whose
canonical form is `x.com/a`. -/
def c3serpA : SerpResult :=
  { q := "qa"
    top10 := [{ position := 1, url := "https://x.com/a", title := "A" }]
    aiOverview := AIOverview.absent
    targetPageOnPage1 := false
    sameDomainOnPage1 := false }

/-- Second SERP result of the C3 counterexample: two distinct organic URLs that
canonicalize to the same string `x.com/a`. -/
def c3serpB : SerpResult :=
  { q := "qb"
    top10 := [{ position := 1, url := "https://x.com/a", title := "B1" },
              { position := 2, url := "http://x.com/a/", title := "B2" }]
    aiOverview := AIOverview.absent
    targetPageOnPage1 := false
    sameDomainOnPage1 := false }

/-- C3, counterexample.  For `[c3serpA, c3serpB]` the overlap matrix is not
symmetric (`matrix[0][1] = 2` but `matrix[1][0] = 1`) and `matrix[0][1]`
exceeds the size `1` of the set intersection of the two canonicalized URL
sets: the second list contains two URLs with the same canonical form, and
`intersectionSize` counts the second list with multiplicity. -/
theorem c3_overlap_matrix_counterexample :
    matrixEntry (buildOverlapMatrix [c3serpA, c3serpB]) 0 1 = some 2 ∧
    matrixEntry (buildOverlapMatrix [c3serpA, c3serpB]) 1 0 = some 1 ∧
    ((canonUrls c3serpA).toFinset ∩ (canonUrls c3serpB).toFinset).card = 1 := by
  refine ⟨?_, ?_, ?_⟩ <;> decide

/-- C3 (amended).  If every SERP result's canonicalized top-10 URL list is
duplicate-free, the overlap matrix has `10` on the diagonal, is symmetric,
and each off-diagonal entry is the size of the set intersection of the two
canonicalized URL sets.  (Without the duplicate-freeness hypothesis the
counterexample above applies.) -/
theorem c3_overlapMatrix_symm_diag_inter (serpResults : List SerpResult)
    (hnd : ∀ s ∈ serpResults, (canonUrls s).Nodup) (i j : Nat)
    (hi : i < serpResults.length) (hj : j < serpResults.length) :
    matrixEntry (buildOverlapMatrix serpResults) i i = some 10 ∧
    matrixEntry (buildOverlapMatrix serpResults) i j =
      matrixEntry (buildOverlapMatrix serpResults) j i ∧
    (i ≠ j →
      matrixEntry (buildOverlapMatrix serpResults) i j =
        some ((canonUrls (serpResults.get ⟨i, hi⟩)).toFinset ∩
              (canonUrls (serpResults.get ⟨j, hj⟩)).toFinset).card) := by
  have hudi : (canonUrls (serpResults.get ⟨i, hi⟩)).Nodup :=
    hnd _ (serpResults.get_mem _ _)
  have hudj : (canonUrls (serpResults.get ⟨j, hj⟩)).Nodup :=
    hnd _ (serpResults.get_mem _ _)
  refine ⟨?_, ?_, ?_⟩
  · rw [matrixEntry_buildOverlapMatrix serpResults i i hi hi]
    simp
  · rw [matrixEntry_buildOverlapMatrix serpResults i j hi hj,
        matrixEntry_buildOverlapMatrix serpResults j i hj hi]
    by_cases h : i = j
    · simp [h]
    · simp only [h, Ne.symm h, if_false]
      rw [intersectionSize_eq_card_inter _ _ hudj, intersectionSize_eq_card_inter _ _ hudi,
          Finset.inter_comm]
  · intro h
    rw [matrixEntry_buildOverlapMatrix serpResults i j hi hj]
    simp only [h, if_false]
    rw [intersectionSize_eq_card_inter _ _ hudj, Finset.inter_comm]

/-- A SERP result with a duplicate-free canonical URL list, for the C3
witness. -/
def c3serpC : SerpResult :=
  { q := "qc"
    top10 := [{ position := 1, url := "https://x.com/a", title := "C1" },
              { position := 2, url := "https://x.com/b", title := "C2" }]
    aiOverview := AIOverview.absent
    targetPageOnPage1 := false
    sameDomainOnPage1 := false }

/-- Witness for C3: concrete instantiation of the amended matrix theorem. -/
theorem c3_overlapMatrix_witness :
    (∀ s ∈ [c3serpA, c3serpC], (canonUrls s).Nodup) ∧
    matrixEntry (buildOverlapMatrix [c3serpA, c3serpC]) 0 0 = some 10 ∧
    matrixEntry (buildOverlapMatrix [c3serpA, c3serpC]) 0 1 =
      matrixEntry (buildOverlapMatrix [c3serpA, c3serpC]) 1 0 ∧
    matrixEntry (buildOverlapMatrix [c3serpA, c3serpC]) 0 1 =
      some ((canonUrls c3serpA).toFinset ∩ (canonUrls c3serpC).toFinset).card := by
  have hnd : ∀ s ∈ [c3serpA, c3serpC], (canonUrls s).Nodup := by decide
  have h := c3_overlapMatrix_symm_diag_inter [c3serpA, c3serpC] hnd 0 1
    (by norm_num) (by norm_num)
  exact ⟨hnd, h.1, h.2.1, h.2.2 (by norm_num)⟩

/-!
## Action classification (`lib/bucketing.ts`, `lib/cluster.ts`, `lib/types.ts`)

`determineAction` is `async` and awaits two collaborators: the semantic
similarity score (`computeSemanticSimilarity`) and the improvement-suggestion
text (`generateImprovementSuggestions`).  The shallow embedding passes the
awaited results as the explicit arguments `similarity` and `suggestions`
(in mock mode the source merely substitutes fixed values for them, so the
branch structure below is exactly that of the source).
-/

/-- The discriminant strings of the `ActionSchema` union in `lib/types.ts`. -/
inductive ActionKind where
  | great_target_page_ranking
  | ok_other_page_diff_cluster
  | cannibalisation
  | expand_target_page
  | new_page
deriving DecidableEq

/-- `Action` from `lib/types.ts`: a discriminated union of five variants.
`ok_other_page_diff_cluster` additionally carries the `suggestions` field that
`determineAction` attaches in `lib/bucketing.ts`. -/
inductive Action where
  | great_target_page_ranking (q : String) (details : String)
  | ok_other_page_diff_cluster (q : String) (otherUrl : String) (details : String)
      (suggestions : String)
  | cannibalisation (q : String) (otherUrl : String) (recommendedFix : String)
  | expand_target_page (q : String) (outline : String)
  | new_page (q : String) (pageBrief : String)
deriving DecidableEq

/-- The `type` discriminant of an `Action`. -/
def Action.kind : Action → ActionKind
  | .great_target_page_ranking _ _ => .great_target_page_ranking
  | .ok_other_page_diff_cluster _ _ _ _ => .ok_other_page_diff_cluster
  | .cannibalisation _ _ _ => .cannibalisation
  | .expand_target_page _ _ => .expand_target_page
  | .new_page _ _ => .new_page

/-- `getClusterForQuery(query, clusters)` from `lib/cluster.ts`: id of the
first cluster whose query list contains `query`, else `null`. -/
def getClusterForQuery (query : String) (clusters : List Cluster) : Option String :=
  match clusters.find? (fun cluster => decide (query ∈ cluster.queries)) with
  | some cluster => some cluster.id
  | none => none

/-- `determineAction(query, serpResult, targetQuery, targetPageUrl, clusters,
openaiApiKey, mockMode)` from `lib/bucketing.ts`.  `similarity` is the awaited
semantic-similarity score and `suggestions` the awaited improvement text;
`targetPageUrl` is only ever forwarded to the similarity collaborator. -/
def determineAction (query : String) (serpResult : SerpResult) (targetQuery : String)
    (targetPageUrl : String) (clusters : List Cluster)
    (similarity : ℚ) (suggestions : String) : Option Action :=
  -- Case A1: target page ranks on page 1 - no action needed
  if serpResult.targetPageOnPage1 then none
  else
    match serpResult.sameDomainOnPage1, serpResult.firstMatch with
    -- Case A2: same domain ranks (but not the target page)
    | true, some firstMatch =>
      let otherUrl := firstMatch.url
      let queryCluster := getClusterForQuery query clusters
      let targetQueryCluster := getClusterForQuery targetQuery clusters
      if queryCluster ≠ targetQueryCluster then
        some (Action.ok_other_page_diff_cluster query otherUrl
          ("Another page (" ++ otherUrl ++ ") ranks at position "
            ++ toString firstMatch.position
            ++ ". Clustering suggests this is a different topic, so keeping separate pages is appropriate.")
          suggestions)
      else
        some (Action.cannibalisation query otherUrl
          ("Another page (" ++ otherUrl ++ ") ranks at position "
            ++ toString firstMatch.position
            ++ " for a query in the same cluster. Consider: (1) Consolidating content into the target page, (2) Using canonical tags, or (3) Adjusting internal linking to favor the target page."))
    -- Case B: domain does not rank - check semantic similarity and cluster
    | _, _ =>
      let queryClusterId := getClusterForQuery query clusters
      let isInTargetCluster := queryClusterId = some "target"
      if similarity ≥ (0.75 : ℚ) ∨ isInTargetCluster then
        some (Action.expand_target_page query
          ("Content outline for \"" ++ query ++ "\" would be generated here"))
      else
        some (Action.new_page query
          ("Page brief for \"" ++ query ++ "\" would be generated here"))

/-- A SERP result whose target page ranks on page 1, for the C1
counterexample. -/
def c1serp : SerpResult :=
  { q := "q"
    top10 := []
    aiOverview := AIOverview.present
    targetPageOnPage1 := true
    sameDomainOnPage1 := true
    firstMatch := some { position := 4, url := "https://example.com/seo-tools-guide" } }

/-- C1, counterexample.  For a SERP result with `targetPageOnPage1 = true`,
`determineAction` returns `null` (no action), not a target-ranks
(`great_target_page_ranking`) action as the claim states. -/
theorem c1_target_ranks_counterexample :
    determineAction "q" c1serp "tq" "https://example.com/page" [] (0.9 : ℚ) "s" = none := by
  rfl

/-- C1 (amended).  For every SERP result with `targetPageOnPage1 = true`,
`determineAction` returns the no-action/null outcome, regardless of cluster
membership or similarity score. -/
theorem c1_target_ranks_returns_none (query : String) (serpResult : SerpResult)
    (targetQuery targetPageUrl : String) (clusters : List Cluster)
    (similarity : ℚ) (suggestions : String)
    (h : serpResult.targetPageOnPage1 = true) :
    determineAction query serpResult targetQuery targetPageUrl clusters
      similarity suggestions = none := by
  simp [determineAction, h]

/-- Witness for C1: the amended theorem applied at a concrete input. -/
theorem c1_target_ranks_witness :
    c1serp.targetPageOnPage1 = true ∧
    determineAction "q" c1serp "tq" "https://example.com/page" [] (0.2 : ℚ) "s" = none :=
  ⟨rfl, c1_target_ranks_returns_none "q" c1serp "tq" "https://example.com/page" [] (0.2 : ℚ)
    "s" rfl⟩

/-- The cluster list of the C2 counterexample: the query and the target query
share the cluster `cluster-1`, whose id is not the literal `target`. -/
def c2clusters : List Cluster :=
  [{ id := "cluster-1", queries := ["q1", "tq"], exemplar := "q1", overlapMatrix := [[10]] }]

/-- A SERP result reaching the third classifier branch, for C2. -/
def c2serp : SerpResult :=
  { q := "q1"
    top10 := []
    aiOverview := AIOverview.unknown
    targetPageOnPage1 := false
    sameDomainOnPage1 := false }

/-- Reduction of `determineAction` on its third branch (target page not on
page 1, and not the same-domain-with-first-match case). -/
theorem determineAction_caseB (query : String) (serpResult : SerpResult)
    (targetQuery targetPageUrl : String) (clusters : List Cluster)
    (similarity : ℚ) (suggestions : String)
    (h1 : serpResult.targetPageOnPage1 = false)
    (h2 : serpResult.sameDomainOnPage1 = false ∨ serpResult.firstMatch = none) :
    determineAction query serpResult targetQuery targetPageUrl clusters
        similarity suggestions =
      if similarity ≥ (0.75 : ℚ) ∨ getClusterForQuery query clusters = some "target"
      then some (Action.expand_target_page query
        ("Content outline for \"" ++ query ++ "\" would be generated here"))
      else some (Action.new_page query
        ("Page brief for \"" ++ query ++ "\" would be generated here")) := by
  unfold determineAction
  rw [h1]
  rcases hsd : serpResult.sameDomainOnPage1 with _ | _ <;>
    rcases hfm : serpResult.firstMatch with _ | fm
  · rfl
  · rfl
  · rfl
  · rcases h2 with h2 | h2
    · rw [h2] at hsd; cases hsd
    · rw [h2] at hfm; cases hfm

/-- C2, counterexample.  The query and the target query have the same cluster
id (`cluster-1`), the similarity score `1/2` is below `0.75`, and the claim
therefore requires `expand_target_page`; the code compares the query's
cluster id against the literal string `target` instead and returns
`new_page`. -/
theorem c2_expand_counterexample :
    getClusterForQuery "q1" c2clusters = getClusterForQuery "tq" c2clusters ∧
    (determineAction "q1" c2serp "tq" "https://example.com/page" c2clusters
        ((1 : ℚ)/2) "s").map Action.kind = some ActionKind.new_page := by
  constructor
  · rfl
  · have hc : ¬ ((1 : ℚ)/2 ≥ (0.75 : ℚ) ∨ getClusterForQuery "q1" c2clusters = some "target") := by
      push_neg
      exact ⟨by norm_num, by decide⟩
    rw [determineAction_caseB "q1" c2serp "tq" "https://example.com/page" c2clusters
      ((1 : ℚ)/2) "s" rfl (Or.inr rfl), if_neg hc]
    rfl

/-- C2 (amended).  On the third classifier branch, `determineAction` returns
`expand_target_page` when the similarity score is at least `0.75` or the
query's own cluster id is the literal string `target`, and `new_page`
otherwise; equality of the query's and the target query's cluster ids is not
consulted on this branch. -/
theorem c2_third_branch_spec (query : String) (serpResult : SerpResult)
    (targetQuery targetPageUrl : String) (clusters : List Cluster)
    (similarity : ℚ) (suggestions : String)
    (h1 : serpResult.targetPageOnPage1 = false)
    (h2 : serpResult.sameDomainOnPage1 = false ∨ serpResult.firstMatch = none) :
    (determineAction query serpResult targetQuery targetPageUrl clusters
        similarity suggestions).map Action.kind =
      some (if similarity ≥ (0.75 : ℚ) ∨ getClusterForQuery query clusters = some "target"
            then ActionKind.expand_target_page else ActionKind.new_page) := by
  rw [determineAction_caseB query serpResult targetQuery targetPageUrl clusters
    similarity suggestions h1 h2]
  by_cases hc : similarity ≥ (0.75 : ℚ) ∨ getClusterForQuery query clusters = some "target" <;>
    simp [hc, Action.kind]
/-- Witness for C2: the amended third-branch theorem applied at a concrete
input (query `q9` belongs to no cluster; similarity `0.9` clears the
threshold). -/
theorem c2_third_branch_witness :
    c2serp.targetPageOnPage1 = false ∧
    (c2serp.sameDomainOnPage1 = false ∨ c2serp.firstMatch = none) ∧
    (determineAction "q9" c2serp "tq" "https://example.com/page" c2clusters
        (0.9 : ℚ) "s").map Action.kind =
      some (if (0.9 : ℚ) ≥ (0.75 : ℚ) ∨ getClusterForQuery "q9" c2clusters = some "target"
            then ActionKind.expand_target_page else ActionKind.new_page) :=
  ⟨rfl, Or.inr rfl,
    c2_third_branch_spec "q9" c2serp "tq" "https://example.com/page" c2clusters
      (0.9 : ℚ) "s" rfl (Or.inr rfl)⟩

/-- C10 (confirmed).  When the target page is not on page 1, the same domain
ranks with a first match present, and neither the query nor the target query
belongs to any cluster (both lookups return `null`), `determineAction`
classifies the query as `cannibalisation`: the two absent cluster ids compare
equal. -/
theorem c10_unclustered_cannibalisation (query : String) (serpResult : SerpResult)
    (targetQuery targetPageUrl : String) (clusters : List Cluster)
    (similarity : ℚ) (suggestions : String) (fm : FirstMatch)
    (h1 : serpResult.targetPageOnPage1 = false)
    (h2 : serpResult.sameDomainOnPage1 = true)
    (h3 : serpResult.firstMatch = some fm)
    (h4 : getClusterForQuery query clusters = none)
    (h5 : getClusterForQuery targetQuery clusters = none) :
    (determineAction query serpResult targetQuery targetPageUrl clusters
        similarity suggestions).map Action.kind = some ActionKind.cannibalisation := by
  unfold determineAction
  rw [h1, h2, h3]
  simp [h4, h5, Action.kind]

/-- SERP result for the C10 witness: same domain ranks via another page. -/
def c10serp : SerpResult :=
  { q := "top seo software"
    top10 := []
    aiOverview := AIOverview.present
    targetPageOnPage1 := false
    sameDomainOnPage1 := true
    firstMatch := some { position := 9, url := "https://example.com/comparison" } }

/-- Witness for C10: concrete instantiation with an empty cluster list, so
both cluster lookups return `null`. -/
theorem c10_unclustered_cannibalisation_witness :
    c10serp.targetPageOnPage1 = false ∧
    c10serp.sameDomainOnPage1 = true ∧
    c10serp.firstMatch = some { position := 9, url := "https://example.com/comparison" } ∧
    getClusterForQuery "top seo software" [] = none ∧
    getClusterForQuery "best seo tools" [] = none ∧
    (determineAction "top seo software" c10serp "best seo tools"
        "https://example.com/seo-tools-guide" [] (0.6 : ℚ) "s").map Action.kind =
      some ActionKind.cannibalisation :=
  ⟨rfl, rfl, rfl, rfl, rfl,
    c10_unclustered_cannibalisation "top seo software" c10serp "best seo tools"
      "https://example.com/seo-tools-guide" [] (0.6 : ℚ) "s"
      { position := 9, url := "https://example.com/comparison" } rfl rfl rfl rfl rfl⟩

/-!
## Action summary (`lib/bucketing.ts`, `getActionSummary`)

The source initializes a summary object with the four keys
`ok_other_page_diff_cluster`, `cannibalisation`, `expand_target_page`,
`new_page` at `0` and executes `summary[action.type]++` for every action.
The summary object is modelled as an insertion-ordered key/value list with
JavaScript number semantics: incrementing an absent key stores `NaN`
(`undefined + 1`), modelled as `none`; incrementing `NaN` leaves `NaN`.
-/

/-- `ClusterRecommendation` from `lib/types.ts`. -/
structure ClusterRecommendation where
  clusterId : String
  exemplar : String
  queries : List String
  aiOverviewPresence : List AIOverview
  actions : List Action
deriving DecidableEq

/-- A JavaScript numeric slot: `some n` is an ordinary count, `none` is
`NaN`. -/
abbrev JsCount := Option Nat

/-- The discriminant string stored in an action's `type` field. -/
def actionTypeKey : ActionKind → String
  | .great_target_page_ranking => "great_target_page_ranking"
  | .ok_other_page_diff_cluster => "ok_other_page_diff_cluster"
  | .cannibalisation => "cannibalisation"
  | .expand_target_page => "expand_target_page"
  | .new_page => "new_page"

/-- Property read `obj[k]` on the modelled summary object: `none` when the
key is absent (`undefined`). -/
def jsGet (obj : List (String × JsCount)) (k : String) : Option JsCount :=
  (obj.find? (fun p => p.1 = k)).map Prod.snd

/-- Statement `obj[k]++`: increments an ordinary count, keeps `NaN`, and
stores `NaN` under an absent key (`undefined + 1` is `NaN`). -/
def jsIncrement (obj : List (String × JsCount)) (k : String) : List (String × JsCount) :=
  match jsGet obj k with
  | some (some n) => obj.map (fun p => if p.1 = k then (p.1, some (n + 1)) else p)
  | some none => obj
  | none => obj ++ [(k, none)]

/-- The object literal that `getActionSummary` initializes. -/
def summaryInit : List (String × JsCount) :=
  [("ok_other_page_diff_cluster", some 0),
   ("cannibalisation", some 0),
   ("expand_target_page", some 0),
   ("new_page", some 0)]

/-- `getActionSummary(recommendations)` from `lib/bucketing.ts`. -/
def getActionSummary (recommendations : List ClusterRecommendation) :
    List (String × JsCount) :=
  recommendations.foldl
    (fun summary rec => rec.actions.foldl
      (fun summary action => jsIncrement summary (actionTypeKey action.kind)) summary)
    summaryInit

/-- A recommendation carrying one `great_target_page_ranking` action, as in
the repository seed script `scripts/dev-seed.ts`. -/
def c7rec : ClusterRecommendation :=
  { clusterId := "cluster-1"
    exemplar := "best seo tools"
    queries := ["best seo tools"]
    aiOverviewPresence := [AIOverview.present]
    actions := [Action.great_target_page_ranking "best seo tools"
      "Target page ranks at position 4 for this query."] }

/-- C7, divergence witnessed on the code.  The summary returned by
`getActionSummary` has no `great_target_page_ranking` key at all (the claim
and the `ActionSchema` in `lib/types.ts` require it, initialized to `0`), and
counting a `great_target_page_ranking` action stores `NaN` rather than `1`,
while the four declared keys stay at `0`. -/
theorem c7_summary_missing_great_kind :
    jsGet (getActionSummary []) "great_target_page_ranking" = none ∧
    jsGet (getActionSummary [c7rec]) "great_target_page_ranking" = some none ∧
    jsGet (getActionSummary [c7rec]) "cannibalisation" = some (some 0) := by
  refine ⟨?_, ?_, ?_⟩ <;> rfl

/-!
## Text similarity and near-duplicate filtering (`lib/normalize.ts`)

`cosineSimilarity` computes a term-frequency cosine over floating-point
numbers; the only use made of it by `filterNearDuplicates` is the comparison
`similarity > threshold`.  The model decides that comparison exactly over the
rationals: with non-empty token lists and positive magnitudes,
`dot/(√mag1·√mag2) > t` holds iff `t < 0` or `dot² > t²·mag1·mag2`.
-/

/-- A JavaScript word character (`\w` is ASCII `[A-Za-z0-9_]`). -/
def isWordChar (c : Char) : Bool :=
  c.isAlphanum || c == '_'

/-- Splits a character list at whitespace (the pieces between separators;
empty pieces arise from leading or repeated separators and are filtered out
by `tokenize`, as in the source). -/
def splitWs : List Char → List (List Char)
  | [] => [[]]
  | c :: cs =>
    match splitWs cs with
    | [] => [[]]
    | t :: ts => if c.isWhitespace then [] :: t :: ts else (c :: t) :: ts

/-- `tokenize(text)` from `lib/normalize.ts`: lowercase, replace non-word
non-space characters with spaces, split on whitespace, drop empty tokens. -/
def tokenize (text : String) : List String :=
  let lowered := text.data.map lowerChar
  let replaced := lowered.map (fun c => if isWordChar c || c.isWhitespace then c else ' ')
  ((splitWs replaced).map (fun t => (⟨t⟩ : String))).filter (fun t => t.length > 0)

/-- The comparison `cosineSimilarity(text1, text2) > threshold` from
`lib/normalize.ts`, decided exactly (term frequencies via `List.count`, the
square-root-free criterion described above; the zero cases returned by the
source compare as the number `0`). -/
def cosineSimilarityExceeds (text1 text2 : String) (threshold : ℚ) : Bool :=
  let tokens1 := tokenize text1
  let tokens2 := tokenize text2
  if tokens1.isEmpty || tokens2.isEmpty then decide ((0 : ℚ) > threshold)
  else
    let allTokens := (tokens1 ++ tokens2).dedup
    let dot : ℚ := (allTokens.map (fun t => ((tokens1.count t : ℚ)) * (tokens2.count t))).sum
    let mag1 : ℚ := (allTokens.map (fun t => ((tokens1.count t : ℚ)) * (tokens1.count t))).sum
    let mag2 : ℚ := (allTokens.map (fun t => ((tokens2.count t : ℚ)) * (tokens2.count t))).sum
    if mag1 = 0 || mag2 = 0 then decide ((0 : ℚ) > threshold)
    else if threshold < 0 then true
    else decide (dot * dot > threshold * threshold * (mag1 * mag2))

/-- `filterNearDuplicates(queries, threshold)` from `lib/normalize.ts`.
The row type `{q: string, ...}` is modelled by an arbitrary type `α` with a
projection `q` to the query text.  Greedy and order-preserving: a candidate
is dropped iff its similarity to some already-kept candidate exceeds the
threshold. -/
def filterNearDuplicates {α : Type} (q : α → String) (queries : List α)
    (threshold : ℚ) : List α :=
  queries.foldl
    (fun result query =>
      if result.any (fun existing => cosineSimilarityExceeds (q query) (q existing) threshold)
      then result
      else result ++ [query])
    []

/-- One step of the greedy filter, abstracted over the similarity test. -/
def keepStep {α : Type} (sim : α → α → Bool) (result : List α) (query : α) : List α :=
  if result.any (fun existing => sim query existing) then result else result ++ [query]

/-- `KeptFrom sim acc m`: every element of `m` survives the greedy filter when
run after the already-kept list `acc`. -/
def KeptFrom {α : Type} (sim : α → α → Bool) : List α → List α → Prop
  | _, [] => True
  | acc, x :: xs =>
    acc.any (fun existing => sim x existing) = false ∧ KeptFrom sim (acc ++ [x]) xs

theorem foldl_keepStep_of_keptFrom {α : Type} (sim : α → α → Bool) :
    ∀ (m acc : List α), KeptFrom sim acc m → List.foldl (keepStep sim) acc m = acc ++ m := by
  intro m
  induction m with
  | nil => intro acc _; simp
  | cons x xs ih =>
    intro acc h
    obtain ⟨h1, h2⟩ := h
    have : keepStep sim acc x = acc ++ [x] := by simp [keepStep, h1]
    simp only [List.foldl_cons, this]
    rw [ih (acc ++ [x]) h2]
    simp

theorem foldl_keepStep_keptFrom {α : Type} (sim : α → α → Bool) :
    ∀ (l acc : List α), ∃ d, List.foldl (keepStep sim) acc l = acc ++ d ∧ KeptFrom sim acc d := by
  intro l
  induction l with
  | nil => intro acc; exact ⟨[], by simp, trivial⟩
  | cons x xs ih =>
    intro acc
    by_cases h : acc.any (fun existing => sim x existing) = true
    · obtain ⟨d, hd, hk⟩ := ih acc
      refine ⟨d, ?_, hk⟩
      simpa [keepStep, h] using hd
    · obtain ⟨d, hd, hk⟩ := ih (acc ++ [x])
      refine ⟨x :: d, ?_, ?_⟩
      · have : keepStep sim acc x = acc ++ [x] := by simp [keepStep, h]
        simp only [List.foldl_cons, this]
        rw [hd]
        simp
      · exact ⟨Bool.eq_false_iff.mpr h, hk⟩

/-- C9 (confirmed).  The near-duplicate filter is idempotent: applying
`filterNearDuplicates` to its own output at the same threshold returns the
output unchanged (same elements, same order). -/
theorem c9_filterNearDuplicates_idempotent {α : Type} (q : α → String)
    (threshold : ℚ) (queries : List α) :
    filterNearDuplicates q (filterNearDuplicates q queries threshold) threshold =
      filterNearDuplicates q queries threshold := by
  have hrepr : ∀ l : List α, filterNearDuplicates q l threshold =
      List.foldl (keepStep (fun a b => cosineSimilarityExceeds (q a) (q b) threshold)) [] l := by
    intro l; rfl
  obtain ⟨d, hd, hk⟩ :=
    foldl_keepStep_keptFrom (fun a b => cosineSimilarityExceeds (q a) (q b) threshold) queries []
  have hout : filterNearDuplicates q queries threshold = d := by
    rw [hrepr]; simpa using hd
  rw [hout, hrepr,
    foldl_keepStep_of_keptFrom (fun a b => cosineSimilarityExceeds (q a) (q b) threshold) d [] hk]
  simp

/-!
## Exemplar selection (`lib/cluster.ts`, `selectExemplar`)
-/

/-- The defined matrix entries `overlapMatrix[idx]?.[otherIdx]` for the other
members (`otherIdx ≠ idx`) of the component, in component order; the source
accumulates their sum and count. -/
def overlapTerms (componentIndices : List Nat) (overlapMatrix : List (List Nat))
    (idx : Nat) : List Nat :=
  componentIndices.filterMap (fun otherIdx =>
    if idx ≠ otherIdx then matrixEntry overlapMatrix idx otherIdx else none)

/-- The average overlap the source computes for `idx`: `totalOverlap / count`
when `count > 0`, else `0`. -/
def avgOverlap (componentIndices : List Nat) (overlapMatrix : List (List Nat))
    (idx : Nat) : ℚ :=
  let terms := overlapTerms componentIndices overlapMatrix idx
  if terms.length > 0 then (terms.sum : ℚ) / (terms.length : ℚ) else 0

/-- `selectExemplar(componentIndices, overlapMatrix, queries)` from
`lib/cluster.ts`: running maximum starting from `-1` with strict improvement,
so the first index attaining the maximal average wins; falls back from a
falsy (empty) query string to `queries[0]` and then to the empty string. -/
def selectExemplar (componentIndices : List Nat) (overlapMatrix : List (List Nat))
    (queries : List String) : String :=
  let st := componentIndices.foldl
    (fun (st : ℚ × Nat) idx =>
      if avgOverlap componentIndices overlapMatrix idx > st.1
      then (avgOverlap componentIndices overlapMatrix idx, idx)
      else st)
    (-1, componentIndices.headD 0)
  let exemplarIdx := st.2
  let q1 := (queries[exemplarIdx]?).getD ""
  if q1 ≠ "" then q1 else (queries[0]?).getD ""

theorem avgOverlap_nonneg (componentIndices : List Nat) (overlapMatrix : List (List Nat))
    (idx : Nat) : 0 ≤ avgOverlap componentIndices overlapMatrix idx := by
  simp only [avgOverlap]
  split
  · positivity
  · exact le_refl 0

/-- Characterization of the running-maximum fold: either nothing beat the
initial maximum, or the result is the value and index of the first position
attaining the overall maximum among positions that beat it. -/
theorem foldl_first_argmax (f : Nat → ℚ) :
    ∀ (l : List Nat) (m : ℚ) (b : Nat),
      (List.foldl (fun (st : ℚ × Nat) idx => if f idx > st.1 then (f idx, idx) else st)
          (m, b) l = (m, b) ∧ ∀ x ∈ l, f x ≤ m) ∨
      (∃ k, ∃ hk : k < l.length,
        List.foldl (fun (st : ℚ × Nat) idx => if f idx > st.1 then (f idx, idx) else st)
            (m, b) l = (f (l.get ⟨k, hk⟩), l.get ⟨k, hk⟩) ∧
        m < f (l.get ⟨k, hk⟩) ∧
        (∀ x ∈ l, f x ≤ f (l.get ⟨k, hk⟩)) ∧
        (∀ j, ∀ hj : j < k, f (l.get ⟨j, hj.trans hk⟩) < f (l.get ⟨k, hk⟩))) := by
  intro l
  induction l with
  | nil =>
    intro m b
    left
    exact ⟨rfl, by simp⟩
  | cons x xs ih =>
    intro m b
    simp only [List.foldl_cons]
    by_cases hx : f x > m
    · rw [if_pos hx]
      rcases ih (f x) x with ⟨heq, hall⟩ | ⟨k, hk, heq, hm, hall, hfirst⟩
      · right
        refine ⟨0, by simp, ?_, ?_, ?_, ?_⟩
        · simpa using heq
        · simpa using hx
        · intro y hy
          rcases List.mem_cons.mp hy with rfl | hy
          · simp
          · simpa using hall y hy
        · intro j hj; cases hj
      · right
        refine ⟨k + 1, by simpa using Nat.succ_lt_succ hk, ?_, ?_, ?_, ?_⟩
        · simpa using heq
        · simpa using hx.trans hm
        · intro y hy
          rcases List.mem_cons.mp hy with rfl | hy
          · simpa using hm.le
          · simpa using hall y hy
        · intro j hj
          rcases Nat.eq_zero_or_pos j with rfl | hz
          · simpa using hm
          · obtain ⟨j', rfl⟩ := Nat.exists_eq_succ_of_ne_zero (Nat.pos_iff_ne_zero.mp hz)
            have hj' : j' < k := Nat.succ_lt_succ_iff.mp hj
            simpa using hfirst j' hj'
    · rw [if_neg hx]
      rcases ih m b with ⟨heq, hall⟩ | ⟨k, hk, heq, hm, hall, hfirst⟩
      · left
        refine ⟨heq, ?_⟩
        intro y hy
        rcases List.mem_cons.mp hy with rfl | hy
        · exact le_of_not_lt hx
        · exact hall y hy
      · right
        refine ⟨k + 1, by simpa using Nat.succ_lt_succ hk, ?_, ?_, ?_, ?_⟩
        · simpa using heq
        · simpa using hm
        · intro y hy
          rcases List.mem_cons.mp hy with rfl | hy
          · simpa using (le_of_not_lt hx).trans hm.le
          · simpa using hall y hy
        · intro j hj
          rcases Nat.eq_zero_or_pos j with rfl | hz
          · simpa using (le_of_not_lt hx).trans_lt hm
          · obtain ⟨j', rfl⟩ := Nat.exists_eq_succ_of_ne_zero (Nat.pos_iff_ne_zero.mp hz)
            have hj' : j' < k := Nat.succ_lt_succ_iff.mp hj
            simpa using hfirst j' hj'

/-- C8 (confirmed).  For a non-empty component whose members all have a
non-empty query string, `selectExemplar` returns the query of the member
whose average pairwise overlap to the other members is maximal, with ties
broken by first occurrence in `componentIndices`; a singleton component's
sole member is its own exemplar (the case `k = 0` of the statement). -/
theorem c8_selectExemplar_max_avg (componentIndices : List Nat)
    (overlapMatrix : List (List Nat)) (queries : List String)
    (hne : componentIndices ≠ [])
    (hq : ∀ i ∈ componentIndices, ((queries[i]?).getD "") ≠ "") :
    ∃ k, ∃ hk : k < componentIndices.length,
      selectExemplar componentIndices overlapMatrix queries =
        (queries[componentIndices.get ⟨k, hk⟩]?).getD "" ∧
      (∀ j ∈ componentIndices,
        avgOverlap componentIndices overlapMatrix j ≤
          avgOverlap componentIndices overlapMatrix (componentIndices.get ⟨k, hk⟩)) ∧
      (∀ j, ∀ hj : j < k,
        avgOverlap componentIndices overlapMatrix
            (componentIndices.get ⟨j, hj.trans hk⟩) <
          avgOverlap componentIndices overlapMatrix (componentIndices.get ⟨k, hk⟩)) := by
  rcases foldl_first_argmax (avgOverlap componentIndices overlapMatrix) componentIndices
      (-1) (componentIndices.headD 0) with ⟨heq, hall⟩ | ⟨k, hk, heq, _, hall, hfirst⟩
  · obtain ⟨x, hx⟩ := List.exists_mem_of_ne_nil componentIndices hne
    have h0 : (0 : ℚ) ≤ avgOverlap componentIndices overlapMatrix x :=
      avgOverlap_nonneg componentIndices overlapMatrix x
    have := hall x hx
    linarith
  · refine ⟨k, hk, ?_, hall, hfirst⟩
    have hmem : componentIndices.get ⟨k, hk⟩ ∈ componentIndices :=
      List.get_mem componentIndices k hk
    have hq1 : ((queries[componentIndices.get ⟨k, hk⟩]?).getD "") ≠ "" := hq _ hmem
    unfold selectExemplar
    rw [heq]
    simp only [hq1, if_true]
    exact if_pos hq1

/-- Witness for C8: the exemplar theorem applied to the two-member component
of the repository test suite (`tests/cluster.test.ts`). -/
theorem c8_selectExemplar_witness :
    ([0, 1] ≠ ([] : List Nat)) ∧
    (∀ i ∈ [0, 1], ((["query1", "query2"][i]?).getD "") ≠ "") ∧
    (∃ k, ∃ hk : k < ([0, 1] : List Nat).length,
      selectExemplar [0, 1] [[10, 5], [5, 10]] ["query1", "query2"] =
        ((["query1", "query2"][([0, 1] : List Nat).get ⟨k, hk⟩]?).getD "") ∧
      (∀ j ∈ ([0, 1] : List Nat),
        avgOverlap [0, 1] [[10, 5], [5, 10]] j ≤
          avgOverlap [0, 1] [[10, 5], [5, 10]] (([0, 1] : List Nat).get ⟨k, hk⟩)) ∧
      (∀ j, ∀ hj : j < k,
        avgOverlap [0, 1] [[10, 5], [5, 10]] (([0, 1] : List Nat).get ⟨j, hj.trans hk⟩) <
          avgOverlap [0, 1] [[10, 5], [5, 10]] (([0, 1] : List Nat).get ⟨k, hk⟩))) :=
  ⟨by decide, by decide,
    c8_selectExemplar_max_avg [0, 1] [[10, 5], [5, 10]] ["query1", "query2"]
      (by decide) (by decide)⟩

/-!
## Similarity graph and connected components (`lib/cluster.ts`)

`Map<number, Set<number>>` is modelled as an insertion-ordered association
list whose values are insertion-ordered duplicate-free lists: `Map.set` on a
fresh key appends, `Set.add` appends unless present, and iteration follows
list order, exactly as JavaScript `Map`/`Set` iterate in insertion order.
The recursive `dfs` of the source is embedded with a fuel parameter; fuel
`|keys| + 1` is always sufficient because every recursive call visits a
previously unvisited key.
-/

/-- The modelled `Map<number, Set<number>>`. -/
abbrev Graph := List (Nat × List Nat)

/-- `graph.has(k)`. -/
def graphHasKey (g : Graph) (k : Nat) : Bool :=
  g.any (fun p => p.1 = k)

/-- `graph.keys()`, in insertion order. -/
def graphKeys (g : Graph) : List Nat :=
  g.map Prod.fst

/-- `graph.get(node)` with a missing key reading as the empty set (the source
only iterates neighbors when `get` returns a set). -/
def adjList (g : Graph) (node : Nat) : List Nat :=
  ((g.find? (fun p => p.1 = node)).map Prod.snd).getD []

/-- `set.add(x)`: append unless already present. -/
def setAdd (s : List Nat) (x : Nat) : List Nat :=
  if x ∈ s then s else s ++ [x]

/-- `graph.get(k)?.add(x)`: mutate the set stored under `k`; no-op when `k`
is absent. -/
def graphAddNeighbor (g : Graph) (k x : Nat) : Graph :=
  g.map (fun p => if p.1 = k then (p.1, setAdd p.2 x) else p)

/-- `if (!graph.has(k)) graph.set(k, new Set())`. -/
def graphEnsureKey (g : Graph) (k : Nat) : Graph :=
  if graphHasKey g k then g else g ++ [(k, [])]

/-- The three statements that record an accepted edge `(i, j)`:
`graph.get(i)?.add(j)`, creation of `j`'s set if absent, and
`graph.get(j)?.add(i)`. -/
def graphAddEdge (g : Graph) (i j : Nat) : Graph :=
  graphAddNeighbor (graphEnsureKey (graphAddNeighbor g i j) j) j i

/-- The body of the inner `j` loop of `buildSimilarityGraph`: read
`overlapMatrix[i]?.[j]`, and when defined and at least the threshold, add the
edge in both directions, creating `j`'s set first if needed. -/
def bsgProcessPair (overlapMatrix : List (List Nat)) (threshold : ℚ) (i : Nat)
    (g : Graph) (j : Nat) : Graph :=
  match matrixEntry overlapMatrix i j with
  | some overlap =>
    if (overlap : ℚ) ≥ threshold then graphAddEdge g i j
    else g
  | none => g

/-- `buildSimilarityGraph(overlapMatrix, threshold)` from `lib/cluster.ts`. -/
def buildSimilarityGraph (overlapMatrix : List (List Nat)) (threshold : ℚ) : Graph :=
  let n := overlapMatrix.length
  (List.range n).foldl
    (fun g i =>
      (List.range' (i + 1) (n - (i + 1))).foldl (bsgProcessPair overlapMatrix threshold i)
        (graphEnsureKey g i))
    []

/-- The recursive `dfs(node, component)` of `findConnectedComponents`,
embedded with fuel.  State is the pair (visited set, component array); both
receive `node`, then the neighbors are folded over, recursing on unvisited
ones. -/
def dfsF : Nat → Graph → Nat → List Nat × List Nat → List Nat × List Nat
  | 0, _, _, vc => vc
  | fuel + 1, g, node, vc =>
    (adjList g node).foldl
      (fun vc neighbor => if neighbor ∈ vc.1 then vc else dfsF fuel g neighbor vc)
      (setAdd vc.1 node, vc.2 ++ [node])

/-- The outer loop of `findConnectedComponents`: seed a DFS at every not-yet
visited key, in key order. -/
def fccLoop (g : Graph) : List Nat → List Nat × List (List Nat) → List Nat × List (List Nat)
  | [], st => st
  | node :: rest, st =>
    if node ∈ st.1 then fccLoop g rest st
    else
      let vc := dfsF ((graphKeys g).length + 1) g node (st.1, [])
      fccLoop g rest (vc.1, st.2 ++ [vc.2])

/-- `findConnectedComponents(graph)` from `lib/cluster.ts`. -/
def findConnectedComponents (g : Graph) : List (List Nat) :=
  (fccLoop g (graphKeys g) ([], [])).2

/-- The error thrown by `clusterBySerpSimilarity`: a `ClusteringError` whose
context records the offending threshold. -/
structure ClusteringError where
  message : String
  threshold : ℚ
deriving DecidableEq

/-- The component list that `clusterBySerpSimilarity` builds: the traversal
components plus a singleton component for every index not covered by them. -/
def clusterComponents (serpResults : List SerpResult) (threshold : ℚ) : List (List Nat) :=
  let overlapMatrix := buildOverlapMatrix serpResults
  let graph := buildSimilarityGraph overlapMatrix threshold
  let components := findConnectedComponents graph
  let coveredNodes := components.flatten
  components ++
    (((List.range serpResults.length).filter (fun i => decide (¬ i ∈ coveredNodes))).map
      (fun i => [i]))

/-- The cluster records assembled from the components: lookup of the target
component, per-component query lists (dropping falsy entries), exemplar,
restricted overlap matrix, and ids (`"target"` for the target component,
`"cluster-<idx+1>"` otherwise). -/
def assembleClusters (serpResults : List SerpResult) (threshold : ℚ)
    (targetQuery : Option String) : List Cluster :=
  let overlapMatrix := buildOverlapMatrix serpResults
  let components := clusterComponents serpResults threshold
  let queries := serpResults.map (fun s => s.q)
  let targetClusterIndex : Option Nat :=
    match targetQuery with
    | some tq =>
      components.findIdx? (fun componentIndices =>
        componentIndices.any (fun i =>
          match queries[i]? with
          | some q => q = tq
          | none => false))
    | none => none
  components.enum.map (fun p =>
    let idx := p.1
    let componentIndices := p.2
    let clusterQueries :=
      (componentIndices.map (fun i => (queries[i]?).getD "")).filter (fun q => q ≠ "")
    let exemplar := selectExemplar componentIndices overlapMatrix queries
    let clusterOverlapMatrix := componentIndices.map (fun i =>
      componentIndices.map (fun j => (matrixEntry overlapMatrix i j).getD 0))
    let clusterId :=
      if targetClusterIndex = some idx then "target" else "cluster-" ++ toString (idx + 1)
    { id := clusterId
      queries := clusterQueries
      exemplar := exemplar
      overlapMatrix := clusterOverlapMatrix })

/-- `clusterBySerpSimilarity(serpResults, threshold, targetQuery)` from
`lib/cluster.ts`.  The empty-input check precedes the threshold validation;
the body after validation is pure and cannot throw, so the source's
`try/catch` re-wrapping never fires. -/
def clusterBySerpSimilarity (serpResults : List SerpResult) (threshold : ℚ)
    (targetQuery : Option String) : Except ClusteringError (List Cluster) :=
  if serpResults.length = 0 then Except.ok []
  else if threshold < 1 ∨ threshold > 10 then
    Except.error { message := "Threshold must be between 1 and 10", threshold := threshold }
  else
    Except.ok (assembleClusters serpResults threshold targetQuery)

/-- C4, counterexample.  On the empty results list with the invalid threshold
`0`, `clusterBySerpSimilarity` returns the empty cluster list instead of
raising the invalid-threshold error: the emptiness check runs first. -/
theorem c4_empty_invalid_threshold_counterexample :
    clusterBySerpSimilarity [] 0 none = Except.ok [] := rfl

/-- C4 (amended).  For every non-empty results list, a threshold outside
`[1, 10]` raises the clustering error naming the offending value, before any
graph work; the empty results list returns the empty cluster list for every
threshold, valid or not. -/
theorem c4_invalid_threshold_spec :
    (∀ (serpResults : List SerpResult) (threshold : ℚ) (targetQuery : Option String),
      serpResults ≠ [] → (threshold < 1 ∨ threshold > 10) →
      clusterBySerpSimilarity serpResults threshold targetQuery =
        Except.error { message := "Threshold must be between 1 and 10",
                       threshold := threshold }) ∧
    (∀ (threshold : ℚ) (targetQuery : Option String),
      clusterBySerpSimilarity [] threshold targetQuery = Except.ok []) := by
  constructor
  · intro serpResults threshold targetQuery hne hbad
    have hlen : serpResults.length ≠ 0 := fun h => hne (List.length_eq_zero.mp h)
    simp [clusterBySerpSimilarity, hlen, hbad]
  · intro threshold targetQuery
    rfl

/-- Witness for C4: both conjuncts applied at concrete inputs (threshold `11`
on a one-element list errors; threshold `0` on the empty list succeeds). -/
theorem c4_invalid_threshold_witness :
    ([c1serp] ≠ ([] : List SerpResult)) ∧ ((11 : ℚ) < 1 ∨ (11 : ℚ) > 10) ∧
    clusterBySerpSimilarity [c1serp] 11 none =
      Except.error { message := "Threshold must be between 1 and 10", threshold := (11 : ℚ) } ∧
    clusterBySerpSimilarity [] 0 (some "tq") = Except.ok [] :=
  ⟨by simp, Or.inr (by norm_num),
    c4_invalid_threshold_spec.1 [c1serp] 11 none (by simp) (Or.inr (by norm_num)),
    c4_invalid_threshold_spec.2 0 (some "tq")⟩

/-! ### Association-list and set lemmas for the graph model -/

theorem mem_setAdd {s : List Nat} {x y : Nat} :
    y ∈ setAdd s x ↔ y ∈ s ∨ y = x := by
  unfold setAdd
  by_cases h : x ∈ s
  · rw [if_pos h]
    constructor
    · exact fun hy => Or.inl hy
    · rintro (hy | rfl)
      · exact hy
      · exact h
  · rw [if_neg h]
    simp

theorem setAdd_nodup {s : List Nat} {x : Nat} (hs : s.Nodup) : (setAdd s x).Nodup := by
  unfold setAdd
  by_cases h : x ∈ s
  · rwa [if_pos h]
  · rw [if_neg h]
    exact hs.append (List.nodup_singleton x) (by simpa using h)

theorem setAdd_of_not_mem {s : List Nat} {x : Nat} (h : x ∉ s) :
    setAdd s x = s ++ [x] := if_neg h

theorem graphHasKey_iff {g : Graph} {k : Nat} :
    graphHasKey g k = true ↔ k ∈ graphKeys g := by
  simp [graphHasKey, graphKeys, List.any_eq_true]

theorem graphKeys_graphAddNeighbor (g : Graph) (k x : Nat) :
    graphKeys (graphAddNeighbor g k x) = graphKeys g := by
  induction g with
  | nil => rfl
  | cons p ps ih =>
    simp only [graphAddNeighbor, graphKeys, List.map_cons] at *
    by_cases h : p.1 = k
    · simp only [if_pos h]
      exact congrArg _ ih
    · simp only [if_neg h]
      exact congrArg _ ih

theorem graphKeys_graphEnsureKey (g : Graph) (k : Nat) :
    graphKeys (graphEnsureKey g k) =
      if graphHasKey g k then graphKeys g else graphKeys g ++ [k] := by
  unfold graphEnsureKey
  split
  · rfl
  · simp [graphKeys]

theorem mem_keys_graphEnsureKey_self (g : Graph) (k : Nat) :
    k ∈ graphKeys (graphEnsureKey g k) := by
  rw [graphKeys_graphEnsureKey]
  split
  · next h => exact graphHasKey_iff.mp h
  · simp

theorem mem_keys_graphEnsureKey {g : Graph} {k k' : Nat} :
    k' ∈ graphKeys (graphEnsureKey g k) ↔ k' ∈ graphKeys g ∨ k' = k := by
  rw [graphKeys_graphEnsureKey]
  split
  · next h =>
    constructor
    · exact fun hy => Or.inl hy
    · rintro (hy | rfl)
      · exact hy
      · exact graphHasKey_iff.mp h
  · simp

theorem adjList_cons (p : Nat × List Nat) (ps : Graph) (node : Nat) :
    adjList (p :: ps) node = if p.1 = node then p.2 else adjList ps node := by
  unfold adjList
  by_cases h : p.1 = node
  · rw [List.find?_cons_of_pos _ (by simpa using h), if_pos h]
    rfl
  · rw [List.find?_cons_of_neg _ (by simpa using h), if_neg h]

theorem adjList_nil (node : Nat) : adjList [] node = [] := rfl

theorem mem_graphKeys {g : Graph} {k : Nat} :
    k ∈ graphKeys g ↔ ∃ p ∈ g, p.1 = k := by
  simp [graphKeys]

theorem adjList_graphAddNeighbor (g : Graph) (k x node : Nat) :
    adjList (graphAddNeighbor g k x) node =
      if node = k ∧ k ∈ graphKeys g then setAdd (adjList g k) x else adjList g node := by
  have hfind : (graphAddNeighbor g k x).find? (fun p => decide (p.1 = node)) =
      (g.find? (fun p => decide (p.1 = node))).map
        (fun p => if p.1 = k then (p.1, setAdd p.2 x) else p) := by
    unfold graphAddNeighbor
    rw [List.find?_map]
    have hpred : ((fun p : Nat × List Nat => decide (p.1 = node)) ∘
        fun p => if p.1 = k then (p.1, setAdd p.2 x) else p) =
        (fun p : Nat × List Nat => decide (p.1 = node)) := by
      funext p
      by_cases h : p.1 = k <;> simp [h, Function.comp]
    rw [hpred]
  unfold adjList
  rw [hfind]
  cases hf : g.find? (fun p => decide (p.1 = node)) with
  | none =>
    have hcond : ¬ (node = k ∧ k ∈ graphKeys g) := by
      rintro ⟨rfl, hk⟩
      obtain ⟨p, hp, hp1⟩ := mem_graphKeys.mp hk
      have := List.find?_eq_none.mp hf p hp
      simp [hp1] at this
    rw [if_neg hcond]
    rfl
  | some p =>
    have hp1 : p.1 = node := by simpa using List.find?_some hf
    have hpg : p ∈ g := List.mem_of_find?_eq_some hf
    by_cases hpk : p.1 = k
    · have hnk : node = k := by rw [← hp1, hpk]
      subst hnk
      have hcond : node = node ∧ node ∈ graphKeys g :=
        ⟨rfl, mem_graphKeys.mpr ⟨p, hpg, hp1⟩⟩
      rw [if_pos hcond, hf]
      simp [hpk]
    · have hnk : ¬ (node = k ∧ k ∈ graphKeys g) := by
        rintro ⟨rfl, -⟩
        exact hpk hp1
      rw [if_neg hnk]
      simp [hpk]

theorem mem_adjList_graphAddNeighbor {g : Graph} {k x node y : Nat} :
    y ∈ adjList (graphAddNeighbor g k x) node ↔
      y ∈ adjList g node ∨ (node = k ∧ k ∈ graphKeys g ∧ y = x) := by
  rw [adjList_graphAddNeighbor]
  by_cases h : node = k ∧ k ∈ graphKeys g
  · rw [if_pos h]
    obtain ⟨rfl, hk⟩ := h
    rw [mem_setAdd]
    constructor
    · rintro (hy | rfl)
      · exact Or.inl hy
      · exact Or.inr ⟨rfl, hk, rfl⟩
    · rintro (hy | ⟨-, -, rfl⟩)
      · exact Or.inl hy
      · exact Or.inr rfl
  · rw [if_neg h]
    constructor
    · exact fun hy => Or.inl hy
    · rintro (hy | ⟨h1, h2, -⟩)
      · exact hy
      · exact absurd ⟨h1, h2⟩ h

theorem adjList_graphEnsureKey (g : Graph) (k node : Nat) :
    adjList (graphEnsureKey g k) node = adjList g node := by
  unfold graphEnsureKey
  split
  · rfl
  · unfold adjList
    rw [List.find?_append]
    cases hf : g.find? (fun p => decide (p.1 = node)) with
    | some p => rfl
    | none =>
      by_cases hkn : k = node
      · simp [hkn]
      · simp [hkn]

/-! ### Edge insertion and the similarity-graph characterization -/

theorem mem_keys_graphAddEdge {g : Graph} {i j k : Nat} :
    k ∈ graphKeys (graphAddEdge g i j) ↔ k ∈ graphKeys g ∨ k = j := by
  unfold graphAddEdge
  rw [graphKeys_graphAddNeighbor, mem_keys_graphEnsureKey, graphKeys_graphAddNeighbor]

theorem keys_nodup_graphAddEdge {g : Graph} {i j : Nat} (h : (graphKeys g).Nodup) :
    (graphKeys (graphAddEdge g i j)).Nodup := by
  unfold graphAddEdge
  rw [graphKeys_graphAddNeighbor, graphKeys_graphEnsureKey, graphKeys_graphAddNeighbor]
  split
  · exact h
  · next hnot =>
    have hj : ¬ j ∈ graphKeys g := by
      intro hj
      rw [← graphKeys_graphAddNeighbor g i j] at hj
      exact hnot (graphHasKey_iff.mpr hj)
    refine h.append (List.nodup_singleton j) ?_
    intro a ha hmem
    rw [List.mem_singleton] at hmem
    subst hmem
    exact hj ha

theorem mem_adjList_graphAddEdge {g : Graph} {i j : Nat} (hik : i ∈ graphKeys g)
    (node y : Nat) :
    y ∈ adjList (graphAddEdge g i j) node ↔
      y ∈ adjList g node ∨ (node = i ∧ y = j) ∨ (node = j ∧ y = i) := by
  unfold graphAddEdge
  have hj : j ∈ graphKeys (graphEnsureKey (graphAddNeighbor g i j) j) :=
    mem_keys_graphEnsureKey_self _ _
  rw [mem_adjList_graphAddNeighbor, adjList_graphEnsureKey, mem_adjList_graphAddNeighbor]
  constructor
  · rintro ((hy | ⟨rfl, -, rfl⟩) | ⟨rfl, -, rfl⟩)
    · exact Or.inl hy
    · exact Or.inr (Or.inl ⟨rfl, rfl⟩)
    · exact Or.inr (Or.inr ⟨rfl, rfl⟩)
  · rintro (hy | ⟨rfl, rfl⟩ | ⟨rfl, rfl⟩)
    · exact Or.inl (Or.inl hy)
    · exact Or.inl (Or.inr ⟨rfl, hik, rfl⟩)
    · exact Or.inr ⟨rfl, hj, rfl⟩

/-- The inner-loop condition on the pair `(i, j)`: the matrix entry is defined
and at least the threshold. -/
def edgeAccepted (overlapMatrix : List (List Nat)) (threshold : ℚ) (i j : Nat) : Prop :=
  ∃ o, matrixEntry overlapMatrix i j = some o ∧ (o : ℚ) ≥ threshold

theorem mem_keys_bsgProcessPair {M : List (List Nat)} {t : ℚ} {i j k : Nat} {g : Graph} :
    k ∈ graphKeys (bsgProcessPair M t i g j) ↔
      k ∈ graphKeys g ∨ (edgeAccepted M t i j ∧ k = j) := by
  unfold bsgProcessPair
  cases hm : matrixEntry M i j with
  | none =>
    simp only [edgeAccepted, hm]
    constructor
    · exact fun h => Or.inl h
    · rintro (h | ⟨⟨o, ho, -⟩, -⟩)
      · exact h
      · cases ho
  | some o =>
    by_cases ho : (o : ℚ) ≥ t
    all_goals dsimp only
    · rw [if_pos ho, mem_keys_graphAddEdge]
      have hacc : edgeAccepted M t i j := ⟨o, hm, ho⟩
      constructor
      · rintro (h | rfl)
        · exact Or.inl h
        · exact Or.inr ⟨hacc, rfl⟩
      · rintro (h | ⟨-, rfl⟩)
        · exact Or.inl h
        · exact Or.inr rfl
    · rw [if_neg ho]
      constructor
      · exact fun h => Or.inl h
      · rintro (h | ⟨⟨o', ho', hge⟩, -⟩)
        · exact h
        · rw [hm] at ho'
          cases ho'
          exact absurd hge ho

theorem keys_nodup_bsgProcessPair {M : List (List Nat)} {t : ℚ} {i j : Nat} {g : Graph}
    (h : (graphKeys g).Nodup) : (graphKeys (bsgProcessPair M t i g j)).Nodup := by
  unfold bsgProcessPair
  cases matrixEntry M i j with
  | none => exact h
  | some o =>
    by_cases ho : (o : ℚ) ≥ t
    all_goals dsimp only
    · rw [if_pos ho]
      exact keys_nodup_graphAddEdge h
    · rwa [if_neg ho]

theorem mem_adjList_bsgProcessPair {M : List (List Nat)} {t : ℚ} {i j : Nat} {g : Graph}
    (hik : i ∈ graphKeys g) (node y : Nat) :
    y ∈ adjList (bsgProcessPair M t i g j) node ↔
      y ∈ adjList g node ∨
        (edgeAccepted M t i j ∧ ((node = i ∧ y = j) ∨ (node = j ∧ y = i))) := by
  unfold bsgProcessPair
  cases hm : matrixEntry M i j with
  | none =>
    constructor
    · exact fun h => Or.inl h
    · rintro (h | ⟨⟨o, ho, -⟩, -⟩)
      · exact h
      · rw [hm] at ho; cases ho
  | some o =>
    by_cases ho : (o : ℚ) ≥ t
    all_goals dsimp only
    · rw [if_pos ho, mem_adjList_graphAddEdge hik]
      have hacc : edgeAccepted M t i j := ⟨o, hm, ho⟩
      constructor
      · rintro (h | h | h)
        · exact Or.inl h
        · exact Or.inr ⟨hacc, Or.inl h⟩
        · exact Or.inr ⟨hacc, Or.inr h⟩
      · rintro (h | ⟨-, h | h⟩)
        · exact Or.inl h
        · exact Or.inr (Or.inl h)
        · exact Or.inr (Or.inr h)
    · rw [if_neg ho]
      constructor
      · exact fun h => Or.inl h
      · rintro (h | ⟨⟨o', ho', hge⟩, -⟩)
        · exact h
        · rw [hm] at ho'
          cases ho'
          exact absurd hge ho

theorem bsg_inner (M : List (List Nat)) (t : ℚ) (i : Nat) :
    ∀ (J : List Nat) (g : Graph), i ∈ graphKeys g →
      (∀ k, k ∈ graphKeys (J.foldl (bsgProcessPair M t i) g) ↔
        k ∈ graphKeys g ∨ ∃ j ∈ J, edgeAccepted M t i j ∧ k = j) ∧
      ((graphKeys g).Nodup → (graphKeys (J.foldl (bsgProcessPair M t i) g)).Nodup) ∧
      (∀ node y, y ∈ adjList (J.foldl (bsgProcessPair M t i) g) node ↔
        y ∈ adjList g node ∨
          ∃ j ∈ J, edgeAccepted M t i j ∧ ((node = i ∧ y = j) ∨ (node = j ∧ y = i))) := by
  intro J
  induction J with
  | nil =>
    intro g hik
    refine ⟨fun k => ?_, fun h => h, fun node y => ?_⟩ <;> simp
  | cons j J ih =>
    intro g hik
    have hik1 : i ∈ graphKeys (bsgProcessPair M t i g j) :=
      mem_keys_bsgProcessPair.mpr (Or.inl hik)
    obtain ⟨ihk, ihn, iha⟩ := ih (bsgProcessPair M t i g j) hik1
    refine ⟨fun k => ?_, fun hnd => ihn (keys_nodup_bsgProcessPair hnd), fun node y => ?_⟩
    · rw [List.foldl_cons, ihk k, mem_keys_bsgProcessPair]
      constructor
      · rintro ((h | h) | ⟨j', hj', h⟩)
        · exact Or.inl h
        · exact Or.inr ⟨j, List.mem_cons_self j J, h⟩
        · exact Or.inr ⟨j', List.mem_cons_of_mem j hj', h⟩
      · rintro (h | ⟨j', hj', h⟩)
        · exact Or.inl (Or.inl h)
        · rcases List.mem_cons.mp hj' with rfl | hj'
          · exact Or.inl (Or.inr h)
          · exact Or.inr ⟨j', hj', h⟩
    · rw [List.foldl_cons, iha node y, mem_adjList_bsgProcessPair hik]
      constructor
      · rintro ((h | h) | ⟨j', hj', h⟩)
        · exact Or.inl h
        · exact Or.inr ⟨j, List.mem_cons_self j J, h⟩
        · exact Or.inr ⟨j', List.mem_cons_of_mem j hj', h⟩
      · rintro (h | ⟨j', hj', h⟩)
        · exact Or.inl (Or.inl h)
        · rcases List.mem_cons.mp hj' with rfl | hj'
          · exact Or.inl (Or.inr h)
          · exact Or.inr ⟨j', hj', h⟩

theorem keys_nodup_graphEnsureKey {g : Graph} {k : Nat} (h : (graphKeys g).Nodup) :
    (graphKeys (graphEnsureKey g k)).Nodup := by
  rw [graphKeys_graphEnsureKey]
  split
  · exact h
  · next hnot =>
    have hk : ¬ k ∈ graphKeys g := fun hk => hnot (graphHasKey_iff.mpr hk)
    refine h.append (List.nodup_singleton k) ?_
    intro a ha hmem
    rw [List.mem_singleton] at hmem
    subst hmem
    exact hk ha

theorem mem_range'_iff {i j n : Nat} (hi : i < n) :
    j ∈ List.range' (i + 1) (n - (i + 1)) ↔ i < j ∧ j < n := by
  rw [List.mem_range'_1]
  omega

theorem bsg_outer (M : List (List Nat)) (t : ℚ) :
    ∀ (I : List Nat) (g : Graph), (∀ i ∈ I, i < M.length) →
      (∀ k, k ∈ graphKeys (I.foldl
          (fun g i => (List.range' (i + 1) (M.length - (i + 1))).foldl
            (bsgProcessPair M t i) (graphEnsureKey g i)) g) ↔
        k ∈ graphKeys g ∨ k ∈ I ∨
          ∃ i ∈ I, ∃ j, i < j ∧ j < M.length ∧ edgeAccepted M t i j ∧ k = j) ∧
      ((graphKeys g).Nodup → (graphKeys (I.foldl
          (fun g i => (List.range' (i + 1) (M.length - (i + 1))).foldl
            (bsgProcessPair M t i) (graphEnsureKey g i)) g)).Nodup) ∧
      (∀ node y, y ∈ adjList (I.foldl
          (fun g i => (List.range' (i + 1) (M.length - (i + 1))).foldl
            (bsgProcessPair M t i) (graphEnsureKey g i)) g) node ↔
        y ∈ adjList g node ∨
          ∃ i ∈ I, ∃ j, i < j ∧ j < M.length ∧ edgeAccepted M t i j ∧
            ((node = i ∧ y = j) ∨ (node = j ∧ y = i))) := by
  intro I
  induction I with
  | nil =>
    intro g _
    refine ⟨fun k => ?_, fun h => h, fun node y => ?_⟩ <;> simp
  | cons i I ih =>
    intro g hI
    have hin : i < M.length := hI i (List.mem_cons_self i I)
    have hI' : ∀ i' ∈ I, i' < M.length := fun i' hi' => hI i' (List.mem_cons_of_mem i hi')
    have hik : i ∈ graphKeys (graphEnsureKey g i) := mem_keys_graphEnsureKey_self g i
    obtain ⟨ik, inn, ia⟩ := bsg_inner M t i (List.range' (i + 1) (M.length - (i + 1)))
      (graphEnsureKey g i) hik
    set g1 := (List.range' (i + 1) (M.length - (i + 1))).foldl (bsgProcessPair M t i)
      (graphEnsureKey g i) with hg1
    obtain ⟨ihk, ihn, iha⟩ := ih g1 hI'
    refine ⟨fun k => ?_, fun hnd => ihn (inn (keys_nodup_graphEnsureKey hnd)), fun node y => ?_⟩
    · rw [List.foldl_cons, ihk k, ik k, mem_keys_graphEnsureKey]
      constructor
      · rintro (((h | rfl) | ⟨j, hj, hacc, rfl⟩) | h | ⟨i', hi', rest⟩)
        · exact Or.inl h
        · exact Or.inr (Or.inl (List.mem_cons_self k I))
        · rw [mem_range'_iff hin] at hj
          exact Or.inr (Or.inr ⟨i, List.mem_cons_self i I, k, hj.1, hj.2, hacc, rfl⟩)
        · exact Or.inr (Or.inl (List.mem_cons_of_mem i h))
        · exact Or.inr (Or.inr ⟨i', List.mem_cons_of_mem i hi', rest⟩)
      · rintro (h | h | ⟨i', hi', j, hij, hjn, hacc, rfl⟩)
        · exact Or.inl (Or.inl (Or.inl h))
        · rcases List.mem_cons.mp h with rfl | h
          · exact Or.inl (Or.inl (Or.inr rfl))
          · exact Or.inr (Or.inl h)
        · rcases List.mem_cons.mp hi' with rfl | hi'
          · exact Or.inl (Or.inr ⟨k, (mem_range'_iff hin).mpr ⟨hij, hjn⟩, hacc, rfl⟩)
          · exact Or.inr (Or.inr ⟨i', hi', k, hij, hjn, hacc, rfl⟩)
    · rw [List.foldl_cons, iha node y, ia node y, adjList_graphEnsureKey]
      constructor
      · rintro ((h | ⟨j, hj, hacc, hpair⟩) | ⟨i', hi', j, hij, hjn, hacc, hpair⟩)
        · exact Or.inl h
        · rw [mem_range'_iff hin] at hj
          exact Or.inr ⟨i, List.mem_cons_self i I, j, hj.1, hj.2, hacc, hpair⟩
        · exact Or.inr ⟨i', List.mem_cons_of_mem i hi', j, hij, hjn, hacc, hpair⟩
      · rintro (h | ⟨i', hi', j, hij, hjn, hacc, hpair⟩)
        · exact Or.inl (Or.inl h)
        · rcases List.mem_cons.mp hi' with rfl | hi'
          · exact Or.inl (Or.inr ⟨j, (mem_range'_iff hin).mpr ⟨hij, hjn⟩, hacc, hpair⟩)
          · exact Or.inr ⟨i', hi', j, hij, hjn, hacc, hpair⟩

theorem mem_keys_buildSimilarityGraph {M : List (List Nat)} {t : ℚ} {k : Nat} :
    k ∈ graphKeys (buildSimilarityGraph M t) ↔ k < M.length := by
  obtain ⟨hk, -, -⟩ := bsg_outer M t (List.range M.length) []
    (fun i hi => List.mem_range.mp hi)
  rw [buildSimilarityGraph]
  rw [hk k]
  constructor
  · rintro ((h : k ∈ graphKeys []) | h | ⟨i, hi, j, hij, hjn, -, rfl⟩)
    · simp [graphKeys] at h
    · exact List.mem_range.mp h
    · exact hjn
  · intro h
    exact Or.inr (Or.inl (List.mem_range.mpr h))

theorem keys_nodup_buildSimilarityGraph (M : List (List Nat)) (t : ℚ) :
    (graphKeys (buildSimilarityGraph M t)).Nodup := by
  obtain ⟨-, hn, -⟩ := bsg_outer M t (List.range M.length) []
    (fun i hi => List.mem_range.mp hi)
  exact hn (by simp [graphKeys])

theorem mem_adjList_buildSimilarityGraph {M : List (List Nat)} {t : ℚ} {node y : Nat} :
    y ∈ adjList (buildSimilarityGraph M t) node ↔
      (node < y ∧ y < M.length ∧ edgeAccepted M t node y) ∨
      (y < node ∧ node < M.length ∧ edgeAccepted M t y node) := by
  obtain ⟨-, -, ha⟩ := bsg_outer M t (List.range M.length) []
    (fun i hi => List.mem_range.mp hi)
  rw [buildSimilarityGraph, ha node y]
  constructor
  · rintro ((h : y ∈ adjList [] node) | ⟨i, hi, j, hij, hjn, hacc, ⟨rfl, rfl⟩ | ⟨rfl, rfl⟩⟩)
    · rw [adjList_nil] at h
      cases h
    · exact Or.inl ⟨hij, hjn, hacc⟩
    · exact Or.inr ⟨hij, hjn, hacc⟩
  · rintro (⟨hlt, hn, hacc⟩ | ⟨hlt, hn, hacc⟩)
    · exact Or.inr ⟨node, List.mem_range.mpr (hlt.trans hn), y, hlt, hn, hacc,
        Or.inl ⟨rfl, rfl⟩⟩
    · exact Or.inr ⟨y, List.mem_range.mpr (hlt.trans hn), node, hlt, hn, hacc,
        Or.inr ⟨rfl, rfl⟩⟩

theorem adj_symm_buildSimilarityGraph {M : List (List Nat)} {t : ℚ} {node y : Nat}
    (h : y ∈ adjList (buildSimilarityGraph M t) node) :
    node ∈ adjList (buildSimilarityGraph M t) y := by
  rw [mem_adjList_buildSimilarityGraph] at h ⊢
  tauto

theorem adj_mono_buildSimilarityGraph {M : List (List Nat)} {t1 t2 : ℚ} (h12 : t1 ≤ t2)
    {node y : Nat} (h : y ∈ adjList (buildSimilarityGraph M t2) node) :
    y ∈ adjList (buildSimilarityGraph M t1) node := by
  rw [mem_adjList_buildSimilarityGraph] at h ⊢
  rcases h with ⟨h1, h2, o, ho, hge⟩ | ⟨h1, h2, o, ho, hge⟩
  · exact Or.inl ⟨h1, h2, o, ho, le_trans h12 hge⟩
  · exact Or.inr ⟨h1, h2, o, ho, le_trans h12 hge⟩

theorem adj_keys_buildSimilarityGraph {M : List (List Nat)} {t : ℚ} {node y : Nat}
    (h : y ∈ adjList (buildSimilarityGraph M t) node) :
    node ∈ graphKeys (buildSimilarityGraph M t) ∧
      y ∈ graphKeys (buildSimilarityGraph M t) := by
  rw [mem_adjList_buildSimilarityGraph] at h
  rw [mem_keys_buildSimilarityGraph, mem_keys_buildSimilarityGraph]
  rcases h with ⟨h1, h2, -⟩ | ⟨h1, h2, -⟩
  · exact ⟨h1.trans h2, h2⟩
  · exact ⟨h2, h1.trans h2⟩

/-! ### Depth-first search: visited/component lockstep, soundness, closure -/

/-- One adjacency step avoiding the set `A`. -/
def adjStepAvoid (g : Graph) (A : List Nat) (a b : Nat) : Prop :=
  b ∈ adjList g a ∧ b ∉ A

/-- The body of the neighbor loop inside `dfs`. -/
def dfsStep (g : Graph) (fuel : Nat) (vc : List Nat × List Nat) (neighbor : Nat) :
    List Nat × List Nat :=
  if neighbor ∈ vc.1 then vc else dfsF fuel g neighbor vc

theorem dfsF_succ (g : Graph) (fuel node : Nat) (vc : List Nat × List Nat) :
    dfsF (fuel + 1) g node vc =
      (adjList g node).foldl (dfsStep g fuel) (setAdd vc.1 node, vc.2 ++ [node]) := rfl

theorem dfs_fold_delta (g : Graph) (fuel : Nat) (A : List Nat) (node0 : Nat)
    (ihf : ∀ (node : Nat) (vc : List Nat × List Nat), node ∉ vc.1 →
      ∃ d, dfsF fuel g node vc = (vc.1 ++ d, vc.2 ++ d) ∧ d.Nodup ∧
        (∀ x ∈ d, x ∉ vc.1) ∧
        (∀ x ∈ d, Relation.ReflTransGen (adjStepAvoid g vc.1) node x)) :
    ∀ (ns : List Nat) (vc : List Nat × List Nat),
      (∀ a ∈ A, a ∈ vc.1) → (∀ nb ∈ ns, nb ∈ adjList g node0) →
      ∃ d, ns.foldl (dfsStep g fuel) vc = (vc.1 ++ d, vc.2 ++ d) ∧ d.Nodup ∧
        (∀ x ∈ d, x ∉ vc.1) ∧
        (∀ x ∈ d, Relation.ReflTransGen (adjStepAvoid g A) node0 x) := by
  intro ns
  induction ns with
  | nil =>
    intro vc _ _
    exact ⟨[], by simp, List.nodup_nil, by simp, by simp⟩
  | cons nb ns ihns =>
    intro vc hA hns
    have hns' : ∀ x ∈ ns, x ∈ adjList g node0 :=
      fun x hx => hns x (List.mem_cons_of_mem nb hx)
    by_cases hnb : nb ∈ vc.1
    · have : dfsStep g fuel vc nb = vc := if_pos hnb
      rw [List.foldl_cons, this]
      exact ihns vc hA hns'
    · have hstep : dfsStep g fuel vc nb = dfsF fuel g nb vc := if_neg hnb
      obtain ⟨d1, hd1, hn1, hf1, hs1⟩ := ihf nb vc hnb
      have hA' : ∀ a ∈ A, a ∈ (dfsF fuel g nb vc).1 := by
        rw [hd1]
        intro a ha
        exact List.mem_append_left d1 (hA a ha)
      obtain ⟨d2, hd2, hn2, hf2, hs2⟩ := ihns (dfsF fuel g nb vc) hA' hns'
      rw [List.foldl_cons, hstep]
      refine ⟨d1 ++ d2, ?_, ?_, ?_, ?_⟩
      · rw [hd2, hd1]
        simp [List.append_assoc]
      · refine hn1.append hn2 ?_
        intro a ha1 ha2
        have := hf2 a ha2
        rw [hd1] at this
        exact this (List.mem_append_right vc.1 ha1)
      · intro x hx
        rcases List.mem_append.mp hx with hx | hx
        · exact hf1 x hx
        · have := hf2 x hx
          rw [hd1] at this
          exact fun hv => this (List.mem_append_left d1 hv)
      · intro x hx
        rcases List.mem_append.mp hx with hx | hx
        · have hpath : Relation.ReflTransGen (adjStepAvoid g vc.1) nb x := hs1 x hx
          have hpath' : Relation.ReflTransGen (adjStepAvoid g A) nb x := by
            refine Relation.ReflTransGen.mono ?_ hpath
            rintro a b ⟨hab, hb⟩
            exact ⟨hab, fun hbA => hb (hA b hbA)⟩
          exact Relation.ReflTransGen.head ⟨hns nb (List.mem_cons_self nb ns), fun h => hnb (hA nb h)⟩ hpath'
        · exact hs2 x hx

theorem dfsF_delta :
    ∀ (fuel : Nat) (g : Graph) (node : Nat) (vc : List Nat × List Nat), node ∉ vc.1 →
      ∃ d, dfsF fuel g node vc = (vc.1 ++ d, vc.2 ++ d) ∧ d.Nodup ∧
        (∀ x ∈ d, x ∉ vc.1) ∧
        (0 < fuel → ∃ d', d = node :: d') ∧
        (∀ x ∈ d, Relation.ReflTransGen (adjStepAvoid g vc.1) node x) := by
  intro fuel
  induction fuel with
  | zero =>
    intro g node vc hnv
    exact ⟨[], by simp [dfsF], List.nodup_nil, by simp, by simp, by simp⟩
  | succ fuel ihf =>
    intro g node vc hnv
    have ihf' : ∀ (node : Nat) (vc : List Nat × List Nat), node ∉ vc.1 →
        ∃ d, dfsF fuel g node vc = (vc.1 ++ d, vc.2 ++ d) ∧ d.Nodup ∧
          (∀ x ∈ d, x ∉ vc.1) ∧
          (∀ x ∈ d, Relation.ReflTransGen (adjStepAvoid g vc.1) node x) := by
      intro node vc h
      obtain ⟨d, h1, h2, h3, -, h5⟩ := ihf g node vc h
      exact ⟨d, h1, h2, h3, h5⟩
    obtain ⟨d0, hd0, hn0, hf0, hs0⟩ :=
      dfs_fold_delta g fuel vc.1 node ihf' (adjList g node)
        (setAdd vc.1 node, vc.2 ++ [node])
        (by
          intro a ha
          rw [setAdd_of_not_mem hnv]
          exact List.mem_append_left _ ha)
        (fun nb h => h)
    rw [dfsF_succ, hd0, setAdd_of_not_mem hnv]
    refine ⟨node :: d0, ?_, ?_, ?_, ?_, ?_⟩
    · simp
    · refine List.nodup_cons.mpr ⟨?_, hn0⟩
      intro hnd0
      have := hf0 node hnd0
      rw [setAdd_of_not_mem hnv] at this
      exact this (List.mem_append_right vc.1 (List.mem_singleton_self node))
    · intro x hx
      rcases List.mem_cons.mp hx with rfl | hx
      · exact hnv
      · have := hf0 x hx
        rw [setAdd_of_not_mem hnv] at this
        exact fun hv => this (List.mem_append_left _ hv)
    · exact fun _ => ⟨d0, rfl⟩
    · intro x hx
      rcases List.mem_cons.mp hx with rfl | hx
      · exact Relation.ReflTransGen.refl
      · exact hs0 x hx

/-- The number of keys not yet visited: the strictly decreasing measure that
makes fuel `|keys| + 1` sufficient. -/
def unvisitedCard (g : Graph) (v : List Nat) : Nat :=
  ((graphKeys g).toFinset \ v.toFinset).card

theorem unvisitedCard_mono {g : Graph} {v w : List Nat} (h : ∀ a ∈ v, a ∈ w) :
    unvisitedCard g w ≤ unvisitedCard g v := by
  apply Finset.card_le_card
  intro a ha
  rw [Finset.mem_sdiff] at ha ⊢
  refine ⟨ha.1, fun hv => ha.2 ?_⟩
  rw [List.mem_toFinset] at hv ⊢
  exact h a hv

theorem unvisitedCard_strict {g : Graph} {v : List Nat} {node : Nat}
    (hk : node ∈ graphKeys g) (hv : node ∉ v) :
    unvisitedCard g (v ++ [node]) < unvisitedCard g v := by
  apply Finset.card_lt_card
  rw [Finset.ssubset_iff_of_subset]
  · refine ⟨node, ?_, ?_⟩
    · rw [Finset.mem_sdiff, List.mem_toFinset, List.mem_toFinset]
      exact ⟨hk, hv⟩
    · rw [Finset.mem_sdiff, List.mem_toFinset]
      rintro ⟨-, hmem⟩
      exact hmem (by simp)
  · intro a ha
    rw [Finset.mem_sdiff] at ha ⊢
    refine ⟨ha.1, fun hmem => ha.2 ?_⟩
    rw [List.mem_toFinset] at hmem ⊢
    simp only [List.mem_append] at *
    exact Or.inl hmem

theorem dfs_fold_closed (g : Graph) (fuel : Nat) (node0 : Nat)
    (hvals : ∀ x y, y ∈ adjList g x → y ∈ graphKeys g)
    (ihfc : ∀ (node : Nat) (vc : List Nat × List Nat),
      node ∈ graphKeys g → node ∉ vc.1 → unvisitedCard g vc.1 < fuel →
      ∀ y, y ∈ (dfsF fuel g node vc).1 → y ∉ vc.1 →
        ∀ z ∈ adjList g y, z ∈ (dfsF fuel g node vc).1) :
    ∀ (ns : List Nat) (vc : List Nat × List Nat),
      (∀ nb ∈ ns, nb ∈ adjList g node0) →
      unvisitedCard g vc.1 < fuel →
      (∀ nb ∈ ns, nb ∈ (ns.foldl (dfsStep g fuel) vc).1) ∧
      (∀ a ∈ vc.1, a ∈ (ns.foldl (dfsStep g fuel) vc).1) ∧
      (∀ y, y ∈ (ns.foldl (dfsStep g fuel) vc).1 → y ∉ vc.1 →
        ∀ z ∈ adjList g y, z ∈ (ns.foldl (dfsStep g fuel) vc).1) := by
  intro ns
  induction ns with
  | nil =>
    intro vc _ _
    refine ⟨by simp, fun a ha => ha, fun y hy hyn => absurd hy hyn⟩
  | cons nb ns ihns =>
    intro vc hns hcard
    have hns' : ∀ x ∈ ns, x ∈ adjList g node0 :=
      fun x hx => hns x (List.mem_cons_of_mem nb hx)
    by_cases hnb : nb ∈ vc.1
    · have hstep : dfsStep g fuel vc nb = vc := if_pos hnb
      rw [List.foldl_cons, hstep]
      obtain ⟨h1, h2, h3⟩ := ihns vc hns' hcard
      refine ⟨?_, h2, h3⟩
      intro x hx
      rcases List.mem_cons.mp hx with rfl | hx
      · exact h2 x hnb
      · exact h1 x hx
    · have hstep : dfsStep g fuel vc nb = dfsF fuel g nb vc := if_neg hnb
      have hnbk : nb ∈ graphKeys g := hvals node0 nb (hns nb (List.mem_cons_self nb ns))
      -- fuel is positive: nb is an unvisited key
      have hpos : 0 < fuel := by
        rcases Nat.eq_zero_or_pos fuel with rfl | h
        · exfalso
          have h1 : 0 < unvisitedCard g vc.1 := by
            apply Finset.card_pos.mpr
            refine ⟨nb, ?_⟩
            rw [Finset.mem_sdiff, List.mem_toFinset, List.mem_toFinset]
            exact ⟨hnbk, hnb⟩
          omega
        · exact h
      obtain ⟨d1, hd1, -, -, hhead, -⟩ := dfsF_delta fuel g nb vc hnb
      obtain ⟨d1', rfl⟩ := hhead hpos
      have hmem_nb : nb ∈ (dfsF fuel g nb vc).1 := by
        rw [hd1]
        exact List.mem_append_right vc.1 (List.mem_cons_self nb d1')
      have hsub : ∀ a ∈ vc.1, a ∈ (dfsF fuel g nb vc).1 := by
        rw [hd1]
        exact fun a ha => List.mem_append_left _ ha
      have hcard' : unvisitedCard g (dfsF fuel g nb vc).1 < fuel :=
        lt_of_le_of_lt (unvisitedCard_mono hsub) hcard
      obtain ⟨h1, h2, h3⟩ := ihns (dfsF fuel g nb vc) hns' hcard'
      rw [List.foldl_cons, hstep]
      have hclose_nb : ∀ y, y ∈ (dfsF fuel g nb vc).1 → y ∉ vc.1 →
          ∀ z ∈ adjList g y, z ∈ (dfsF fuel g nb vc).1 :=
        ihfc nb vc hnbk hnb hcard
      refine ⟨?_, ?_, ?_⟩
      · intro x hx
        rcases List.mem_cons.mp hx with rfl | hx
        · exact h2 x hmem_nb
        · exact h1 x hx
      · exact fun a ha => h2 a (hsub a ha)
      · intro y hy hyvc z hz
        by_cases hy' : y ∈ (dfsF fuel g nb vc).1
        · exact h2 z (hclose_nb y hy' hyvc z hz)
        · exact h3 y hy hy' z hz

theorem dfsF_closed :
    ∀ (fuel : Nat) (g : Graph) (node : Nat) (vc : List Nat × List Nat),
      (∀ x y, y ∈ adjList g x → y ∈ graphKeys g) →
      node ∈ graphKeys g → node ∉ vc.1 → unvisitedCard g vc.1 < fuel →
      ∀ y, y ∈ (dfsF fuel g node vc).1 → y ∉ vc.1 →
        ∀ z ∈ adjList g y, z ∈ (dfsF fuel g node vc).1 := by
  intro fuel
  induction fuel with
  | zero =>
    intro g node vc _ _ _ hcard
    exact absurd hcard (Nat.not_lt_zero _)
  | succ fuel ihf =>
    intro g node vc hvals hkey hnv hcard
    have hcard1 : unvisitedCard g (setAdd vc.1 node) < fuel := by
      rw [setAdd_of_not_mem hnv]
      have := unvisitedCard_strict (g := g) hkey hnv
      omega
    obtain ⟨hfold1, hfold2, hfold3⟩ :=
      dfs_fold_closed g fuel node hvals (fun node vc h1 h2 h3 => ihf g node vc hvals h1 h2 h3)
        (adjList g node) (setAdd vc.1 node, vc.2 ++ [node]) (fun nb h => h) hcard1
    rw [dfsF_succ]
    intro y hy hyvc z hz
    by_cases hynode : y = node
    · subst hynode
      exact hfold1 z hz
    · refine hfold3 y hy ?_ z hz
      rw [setAdd_of_not_mem hnv]
      intro hmem
      rcases List.mem_append.mp hmem with h | h
      · exact hyvc h
      · rw [List.mem_singleton] at h
        exact hynode h

/-- Reachability along graph adjacency. -/
def reaches (g : Graph) (a b : Nat) : Prop :=
  Relation.ReflTransGen (fun x y => y ∈ adjList g x) a b

theorem fccLoop_nil (g : Graph) (st : List Nat × List (List Nat)) :
    fccLoop g [] st = st := rfl

theorem fccLoop_cons (g : Graph) (node : Nat) (rest : List Nat) (v : List Nat)
    (cs : List (List Nat)) :
    fccLoop g (node :: rest) (v, cs) =
      if node ∈ v then fccLoop g rest (v, cs)
      else fccLoop g rest ((dfsF ((graphKeys g).length + 1) g node (v, [])).1,
        cs ++ [(dfsF ((graphKeys g).length + 1) g node (v, [])).2]) := rfl

theorem fccLoop_spec (g : Graph)
    (hsym : ∀ x y, y ∈ adjList g x → x ∈ adjList g y)
    (hvals : ∀ x y, y ∈ adjList g x → y ∈ graphKeys g) :
    ∀ (rest : List Nat) (v : List Nat) (cs : List (List Nat)),
      (∀ k ∈ rest, k ∈ graphKeys g) →
      v = cs.flatten →
      v.Nodup →
      (∀ a ∈ v, a ∈ graphKeys g) →
      (∀ y ∈ v, ∀ z ∈ adjList g y, z ∈ v) →
      (∀ C ∈ cs, ∃ r, r ∈ C ∧ ∀ x, x ∈ C ↔ reaches g r x) →
      (fccLoop g rest (v, cs)).1 = (fccLoop g rest (v, cs)).2.flatten ∧
      (fccLoop g rest (v, cs)).1.Nodup ∧
      (∀ a ∈ (fccLoop g rest (v, cs)).1, a ∈ graphKeys g) ∧
      (∀ C ∈ (fccLoop g rest (v, cs)).2, ∃ r, r ∈ C ∧ ∀ x, x ∈ C ↔ reaches g r x) ∧
      (∀ k ∈ rest, k ∈ (fccLoop g rest (v, cs)).1) ∧
      (∀ a ∈ v, a ∈ (fccLoop g rest (v, cs)).1) := by
  intro rest
  induction rest with
  | nil =>
    intro v cs _ hflat hnd hkeys _ hclass
    exact ⟨hflat, hnd, hkeys, hclass, by simp, fun a ha => ha⟩
  | cons node rest ihr =>
    intro v cs hrk hflat hnd hkeys hclosed hclass
    have hrk' : ∀ k ∈ rest, k ∈ graphKeys g :=
      fun k hk => hrk k (List.mem_cons_of_mem node hk)
    by_cases hnode : node ∈ v
    · rw [fccLoop_cons, if_pos hnode]
      obtain ⟨h1, h2, h3, h4, h5, h6⟩ := ihr v cs hrk' hflat hnd hkeys hclosed hclass
      refine ⟨h1, h2, h3, h4, ?_, h6⟩
      intro k hk
      rcases List.mem_cons.mp hk with rfl | hk
      · exact h6 k hnode
      · exact h5 k hk
    · have hnodek : node ∈ graphKeys g := hrk node (List.mem_cons_self node rest)
      have hcard : unvisitedCard g v < (graphKeys g).length + 1 := by
        have h1 : unvisitedCard g v ≤ (graphKeys g).toFinset.card :=
          Finset.card_le_card (Finset.sdiff_subset)
        have h2 : (graphKeys g).toFinset.card ≤ (graphKeys g).length :=
          List.toFinset_card_le _
        omega
      obtain ⟨d, hd, hdnd, hdfresh, hdhead, hdsound⟩ :=
        dfsF_delta ((graphKeys g).length + 1) g node (v, []) hnode
      obtain ⟨d', rfl⟩ := hdhead (by omega)
      have hvc1 : (dfsF ((graphKeys g).length + 1) g node (v, [])).1 =
          v ++ (node :: d') := by rw [hd]
      have hloop : fccLoop g (node :: rest) (v, cs) =
          fccLoop g rest (v ++ (node :: d'), cs ++ [node :: d']) := by
        rw [fccLoop_cons, if_neg hnode, hd]
        rfl
      have hclosed_new : ∀ y ∈ v ++ (node :: d'), ∀ z ∈ adjList g y,
          z ∈ v ++ (node :: d') := by
        intro y hy z hz
        rcases List.mem_append.mp hy with hyv | hyd
        · exact List.mem_append_left _ (hclosed y hyv z hz)
        · have := dfsF_closed ((graphKeys g).length + 1) g node (v, []) hvals hnodek hnode hcard y
            (by rw [hvc1]; exact List.mem_append_right v hyd)
            (hdfresh y hyd) z hz
          rw [hvc1] at this
          exact this
      have hkeys_new : ∀ a ∈ v ++ (node :: d'), a ∈ graphKeys g := by
        intro a ha
        rcases List.mem_append.mp ha with hav | had
        · exact hkeys a hav
        · rcases (Relation.ReflTransGen.cases_tail_iff _ _ _).mp (hdsound a had) with rfl | ⟨c, -, hstep⟩
          · exact hnodek
          · exact hvals c a hstep.1
      have hreach_iff : ∀ x, x ∈ node :: d' ↔ reaches g node x := by
        intro x
        constructor
        · intro hx
          refine Relation.ReflTransGen.mono ?_ (hdsound x hx)
          rintro a b ⟨hab, -⟩
          exact hab
        · intro hx
          have hmem : x ∈ v ++ (node :: d') ∧ x ∉ v := by
            unfold reaches at hx
            induction hx with
            | refl =>
              exact ⟨List.mem_append_right v (List.mem_cons_self node d'), hnode⟩
            | @tail b c hpath hstep ih =>
              obtain ⟨hc1, hc2⟩ := ih
              refine ⟨hclosed_new b hc1 c hstep, ?_⟩
              intro hcv
              exact hc2 (hclosed c hcv b (hsym b c hstep))
          rcases List.mem_append.mp hmem.1 with h | h
          · exact absurd h hmem.2
          · exact h
      have hclass_new : ∀ C ∈ cs ++ [node :: d'],
          ∃ r, r ∈ C ∧ ∀ x, x ∈ C ↔ reaches g r x := by
        intro C hC
        rcases List.mem_append.mp hC with hC | hC
        · exact hclass C hC
        · rw [List.mem_singleton] at hC
          subst hC
          exact ⟨node, List.mem_cons_self node d', hreach_iff⟩
      have hflat_new : v ++ (node :: d') = (cs ++ [node :: d']).flatten := by
        rw [List.flatten_append, hflat]
        simp
      have hnd_new : (v ++ (node :: d')).Nodup :=
        hnd.append hdnd (fun a hav had => (hdfresh a had) hav)
      obtain ⟨h1, h2, h3, h4, h5, h6⟩ := ihr (v ++ (node :: d')) (cs ++ [node :: d'])
        hrk' hflat_new hnd_new hkeys_new hclosed_new hclass_new
      rw [hloop]
      refine ⟨h1, h2, h3, h4, ?_, ?_⟩
      · intro k hk
        rcases List.mem_cons.mp hk with rfl | hk
        · exact h6 k (List.mem_append_right v (List.mem_cons_self k d'))
        · exact h5 k hk
      · intro a ha
        exact h6 a (List.mem_append_left _ ha)

theorem findConnectedComponents_spec (g : Graph)
    (hsym : ∀ x y, y ∈ adjList g x → x ∈ adjList g y)
    (hvals : ∀ x y, y ∈ adjList g x → y ∈ graphKeys g) :
    (∀ k, k ∈ (findConnectedComponents g).flatten ↔ k ∈ graphKeys g) ∧
    (findConnectedComponents g).flatten.Nodup ∧
    (∀ C ∈ findConnectedComponents g, ∃ r, r ∈ C ∧ ∀ x, x ∈ C ↔ reaches g r x) := by
  obtain ⟨h1, h2, h3, h4, h5, -⟩ := fccLoop_spec g hsym hvals (graphKeys g) [] []
    (fun k hk => hk) (by simp) List.nodup_nil (by simp) (by simp) (by simp)
  unfold findConnectedComponents
  rw [← h1]
  refine ⟨fun k => ⟨fun hk => h3 k hk, fun hk => h5 k hk⟩, h2, ?_⟩
  intro C hC
  exact h4 C hC

/-! ### Counting components across thresholds -/

theorem flatten_nodup_eq_index {l : List (List Nat)} (h : l.flatten.Nodup)
    (i1 i2 : Fin l.length) (x : Nat) (h1 : x ∈ l.get i1) (h2 : x ∈ l.get i2) :
    i1 = i2 := by
  obtain ⟨-, hpair⟩ := List.nodup_flatten.mp h
  rcases lt_trichotomy i1 i2 with hlt | heq | hgt
  · exact ((List.pairwise_iff_get.mp hpair i1 i2 hlt) h1 h2).elim
  · exact heq
  · exact ((List.pairwise_iff_get.mp hpair i2 i1 hgt) h2 h1).elim

/-- If two component lists partition the same node set, the components of the
first are closed under the reachability of a graph `g1`, the components of
the second are reachability classes of a subgraph `g2` of `g1`, and `g1` is
symmetric, then the first list has at most as many components: removing edges
never decreases the component count. -/
theorem components_count_mono (g1 g2 : Graph)
    (hsym1 : ∀ x y, y ∈ adjList g1 x → x ∈ adjList g1 y)
    (hmono : ∀ x y, y ∈ adjList g2 x → y ∈ adjList g1 x)
    (cs1 cs2 : List (List Nat))
    (hmem : ∀ k, k ∈ cs1.flatten ↔ k ∈ cs2.flatten)
    (hnd1 : cs1.flatten.Nodup) (hnd2 : cs2.flatten.Nodup)
    (hcls1 : ∀ C ∈ cs1, ∃ r, r ∈ C ∧ ∀ x, x ∈ C ↔ reaches g1 r x)
    (hcls2 : ∀ C ∈ cs2, ∃ r, r ∈ C ∧ ∀ x, x ∈ C ↔ reaches g2 r x) :
    cs1.length ≤ cs2.length := by
  have hrmono : ∀ a b, reaches g2 a b → reaches g1 a b := by
    intro a b h
    exact Relation.ReflTransGen.mono (fun x y hxy => hmono x y hxy) h
  have hrsym : ∀ a b, reaches g1 a b → reaches g1 b a := by
    intro a b h
    exact Relation.ReflTransGen.symmetric (fun x y hxy => hsym1 x y hxy) h
  have hseeds1 : ∀ j : Fin cs1.length, ∃ r, r ∈ cs1.get j ∧
      ∀ x, x ∈ cs1.get j ↔ reaches g1 r x :=
    fun j => hcls1 _ (cs1.get_mem j j.isLt)
  have hseeds2 : ∀ i : Fin cs2.length, ∃ r, r ∈ cs2.get i ∧
      ∀ x, x ∈ cs2.get i ↔ reaches g2 r x :=
    fun i => hcls2 _ (cs2.get_mem i i.isLt)
  choose r1 hr1 hcr1 using hseeds1
  choose r2 hr2 hcr2 using hseeds2
  have hmap : ∀ j : Fin cs1.length, ∃ i : Fin cs2.length, r1 j ∈ cs2.get i := by
    intro j
    have h1 : r1 j ∈ cs1.flatten := List.mem_flatten.mpr ⟨_, cs1.get_mem j j.isLt, hr1 j⟩
    have h2 : r1 j ∈ cs2.flatten := (hmem _).mp h1
    obtain ⟨C, hC, hrC⟩ := List.mem_flatten.mp h2
    obtain ⟨i, hi⟩ := List.mem_iff_get.mp hC
    exact ⟨i, by rw [hi]; exact hrC⟩
  choose ψ hψ using hmap
  have hinj : Function.Injective ψ := by
    intro j1 j2 heq
    have hm1 : r1 j1 ∈ cs2.get (ψ j1) := hψ j1
    have hm2 : r1 j2 ∈ cs2.get (ψ j1) := by rw [heq]; exact hψ j2
    have hreach1 : reaches g2 (r2 (ψ j1)) (r1 j1) := (hcr2 (ψ j1) _).mp hm1
    have hreach2 : reaches g2 (r2 (ψ j1)) (r1 j2) := (hcr2 (ψ j1) _).mp hm2
    have hg1 : reaches g1 (r1 j1) (r1 j2) :=
      Relation.ReflTransGen.trans (hrsym _ _ (hrmono _ _ hreach1)) (hrmono _ _ hreach2)
    have hmem1 : r1 j2 ∈ cs1.get j1 := (hcr1 j1 _).mpr hg1
    have hmem2 : r1 j2 ∈ cs1.get j2 := hr1 j2
    exact flatten_nodup_eq_index hnd1 j1 j2 (r1 j2) hmem1 hmem2
  have := Fintype.card_le_of_injective ψ hinj
  simpa using this

/-- The components found on the similarity graph of a matrix partition the
index set `{0, …, |M|-1}` and each is a full reachability class. -/
theorem components_bsg_spec (M : List (List Nat)) (t : ℚ) :
    (∀ k, k ∈ (findConnectedComponents (buildSimilarityGraph M t)).flatten ↔ k < M.length) ∧
    (findConnectedComponents (buildSimilarityGraph M t)).flatten.Nodup ∧
    (∀ C ∈ findConnectedComponents (buildSimilarityGraph M t),
      ∃ r, r ∈ C ∧ ∀ x, x ∈ C ↔ reaches (buildSimilarityGraph M t) r x) := by
  obtain ⟨h1, h2, h3⟩ := findConnectedComponents_spec (buildSimilarityGraph M t)
    (fun x y h => adj_symm_buildSimilarityGraph h)
    (fun x y h => (adj_keys_buildSimilarityGraph h).2)
  refine ⟨fun k => ?_, h2, h3⟩
  rw [h1 k, mem_keys_buildSimilarityGraph]

/-- Every index is covered by the traversal components (all indices are keys
of the graph), so the singleton top-up loop of `clusterBySerpSimilarity` adds
nothing. -/
theorem clusterComponents_eq (serpResults : List SerpResult) (t : ℚ) :
    clusterComponents serpResults t =
      findConnectedComponents (buildSimilarityGraph (buildOverlapMatrix serpResults) t) := by
  unfold clusterComponents
  have hcov := (components_bsg_spec (buildOverlapMatrix serpResults) t).1
  have hfilter : ((List.range serpResults.length).filter (fun i => decide (¬ i ∈
      (findConnectedComponents
        (buildSimilarityGraph (buildOverlapMatrix serpResults) t)).flatten))) = [] := by
    rw [List.filter_eq_nil_iff]
    intro a ha
    have halen : a < serpResults.length := List.mem_range.mp ha
    have : a ∈ (findConnectedComponents
        (buildSimilarityGraph (buildOverlapMatrix serpResults) t)).flatten := by
      rw [hcov a, buildOverlapMatrix_length]
      exact halen
    simp [this]
  simp only [hfilter, List.map_nil, List.append_nil]

theorem enum_map_snd_comp {α β : Type} (l : List α) (h : α → β) :
    l.enum.map (fun p => h p.2) = l.map h := by
  rw [show (fun p : Nat × α => h p.2) = h ∘ Prod.snd from rfl, ← List.map_map,
    List.enum_map_snd]

theorem assembleClusters_length (serpResults : List SerpResult) (t : ℚ)
    (tq : Option String) :
    (assembleClusters serpResults t tq).length = (clusterComponents serpResults t).length := by
  unfold assembleClusters
  rw [List.length_map, List.enum_length]

theorem assembleClusters_queries (serpResults : List SerpResult) (t : ℚ)
    (tq : Option String) :
    (assembleClusters serpResults t tq).map Cluster.queries =
      (clusterComponents serpResults t).map (fun componentIndices =>
        (componentIndices.map
          (fun i => (((serpResults.map SerpResult.q)[i]?).getD ""))).filter
            (fun q => q ≠ "")) := by
  unfold assembleClusters
  rw [List.map_map]
  refine Eq.trans ?_ (enum_map_snd_comp (clusterComponents serpResults t)
    (fun componentIndices =>
      (componentIndices.map
        (fun i => (((serpResults.map SerpResult.q)[i]?).getD ""))).filter
          (fun q => q ≠ "")))
  rfl

theorem range_map_getD {α : Type} (l : List α) (d : α) :
    (List.range l.length).map (fun i => (l[i]?).getD d) = l := by
  apply List.ext_get
  · simp
  · intro n h1 h2
    rw [List.get_map]
    have hn : n < l.length := h2
    rw [List.get_range, List.getElem?_eq_getElem hn]
    rfl

/-- C6 (confirmed).  For a fixed input and thresholds `t1 ≤ t2` in `[1, 10]`,
the cluster count of `clusterBySerpSimilarity` at `t2` is at least the count
at `t1`: raising the threshold removes edges and never merges previously
separate queries. -/
theorem c6_cluster_count_monotone (serpResults : List SerpResult) (t1 t2 : ℚ)
    (targetQuery : Option String) (cs1 cs2 : List Cluster)
    (h1 : 1 ≤ t1) (h12 : t1 ≤ t2) (h2 : t2 ≤ 10)
    (hok1 : clusterBySerpSimilarity serpResults t1 targetQuery = Except.ok cs1)
    (hok2 : clusterBySerpSimilarity serpResults t2 targetQuery = Except.ok cs2) :
    cs1.length ≤ cs2.length := by
  by_cases hlen : serpResults.length = 0
  · unfold clusterBySerpSimilarity at hok1 hok2
    rw [if_pos hlen] at hok1 hok2
    obtain rfl := (Except.ok.inj hok1).symm
    obtain rfl := (Except.ok.inj hok2).symm
    exact le_refl 0
  · have hv1 : ¬ (t1 < 1 ∨ t1 > 10) := by
      push_neg
      exact ⟨h1, le_trans h12 h2⟩
    have hv2 : ¬ (t2 < 1 ∨ t2 > 10) := by
      push_neg
      exact ⟨le_trans h1 h12, h2⟩
    unfold clusterBySerpSimilarity at hok1 hok2
    rw [if_neg hlen, if_neg hv1] at hok1
    rw [if_neg hlen, if_neg hv2] at hok2
    obtain rfl := (Except.ok.inj hok1).symm
    obtain rfl := (Except.ok.inj hok2).symm
    rw [assembleClusters_length, assembleClusters_length, clusterComponents_eq,
      clusterComponents_eq]
    obtain ⟨hm1, hn1, hc1⟩ := components_bsg_spec (buildOverlapMatrix serpResults) t1
    obtain ⟨hm2, hn2, hc2⟩ := components_bsg_spec (buildOverlapMatrix serpResults) t2
    exact components_count_mono
      (buildSimilarityGraph (buildOverlapMatrix serpResults) t1)
      (buildSimilarityGraph (buildOverlapMatrix serpResults) t2)
      (fun x y h => adj_symm_buildSimilarityGraph h)
      (fun x y h => adj_mono_buildSimilarityGraph h12 h)
      _ _ (fun k => by rw [hm1 k, hm2 k]) hn1 hn2 hc1 hc2

/-- C5 (amended).  For every input whose queries are all non-empty strings and
every threshold in `[1, 10]`, the concatenation of the clusters' query lists
is a permutation of the input query list: every input occurrence appears
exactly once across the clusters, with no duplicates and no omissions. -/
theorem c5_cluster_queries_partition (serpResults : List SerpResult) (threshold : ℚ)
    (targetQuery : Option String) (clusters : List Cluster)
    (hq : ∀ s ∈ serpResults, s.q ≠ "")
    (h1 : 1 ≤ threshold) (h2 : threshold ≤ 10)
    (hok : clusterBySerpSimilarity serpResults threshold targetQuery = Except.ok clusters) :
    ((clusters.map Cluster.queries).flatten).Perm (serpResults.map SerpResult.q) := by
  by_cases hlen : serpResults.length = 0
  · obtain rfl : serpResults = [] := List.length_eq_zero.mp hlen
    have h0 : clusterBySerpSimilarity ([] : List SerpResult) threshold targetQuery =
        Except.ok [] := rfl
    rw [h0] at hok
    obtain rfl := (Except.ok.inj hok).symm
    simp
  · have hvalid : ¬ (threshold < 1 ∨ threshold > 10) := by
      push_neg
      exact ⟨h1, h2⟩
    unfold clusterBySerpSimilarity at hok
    rw [if_neg hlen, if_neg hvalid] at hok
    obtain rfl := (Except.ok.inj hok).symm
    rw [assembleClusters_queries, clusterComponents_eq]
    obtain ⟨hmem, hnd, -⟩ := components_bsg_spec (buildOverlapMatrix serpResults) threshold
    have hfl : ∀ C ∈ findConnectedComponents
        (buildSimilarityGraph (buildOverlapMatrix serpResults) threshold),
        (C.map (fun i => (((serpResults.map SerpResult.q)[i]?).getD ""))).filter
            (fun q => q ≠ "") =
          C.map (fun i => (((serpResults.map SerpResult.q)[i]?).getD "")) := by
      intro C hC
      rw [List.filter_eq_self]
      intro q hqmem
      obtain ⟨i, hiC, rfl⟩ := List.mem_map.mp hqmem
      have hin : i < serpResults.length := by
        have hm : i ∈ (findConnectedComponents
            (buildSimilarityGraph (buildOverlapMatrix serpResults) threshold)).flatten :=
          List.mem_flatten.mpr ⟨C, hC, hiC⟩
        rw [hmem i, buildOverlapMatrix_length] at hm
        exact hm
      have hsome : (serpResults.map SerpResult.q)[i]? =
          some (serpResults.get ⟨i, hin⟩).q := by
        rw [List.getElem?_map, List.getElem?_eq_getElem hin]
        rfl
      rw [hsome]
      simpa using hq _ (serpResults.get_mem i hin)
    rw [List.map_eq_map_iff.mpr hfl, ← List.map_flatten]
    have hperm : (findConnectedComponents
        (buildSimilarityGraph (buildOverlapMatrix serpResults) threshold)).flatten.Perm
          (List.range serpResults.length) := by
      refine (List.perm_ext_iff_of_nodup hnd (List.nodup_range _)).mpr ?_
      intro a
      rw [hmem a, buildOverlapMatrix_length, List.mem_range]
    have hmap := hperm.map (fun i => (((serpResults.map SerpResult.q)[i]?).getD ""))
    have hrange : (List.range serpResults.length).map
        (fun i => (((serpResults.map SerpResult.q)[i]?).getD "")) =
          serpResults.map SerpResult.q := by
      have hlen2 : serpResults.length = (serpResults.map SerpResult.q).length := by
        rw [List.length_map]
      rw [hlen2]
      exact range_map_getD (serpResults.map SerpResult.q) ""
    rwa [hrange] at hmap

/-- A SERP result whose query is the empty string. -/
def c5serpEmptyQ : SerpResult :=
  { q := ""
    top10 := []
    aiOverview := AIOverview.unknown
    targetPageOnPage1 := false
    sameDomainOnPage1 := false }

/-- C5, counterexample.  For an input whose sole query is the empty string and
valid threshold `5`, the produced cluster has an empty query list: the
`filter` on JavaScript truthiness drops the empty-string query, so the union
of the cluster query lists omits an input query. -/
theorem c5_empty_query_counterexample :
    clusterBySerpSimilarity [c5serpEmptyQ] 5 none =
      Except.ok [{ id := "cluster-1", queries := [], exemplar := "",
                   overlapMatrix := [[10]] }] ∧
    [c5serpEmptyQ].map SerpResult.q = [""] :=
  ⟨rfl, rfl⟩

/-- Witness for C5: the partition theorem applied at a concrete two-query
input with threshold `5`. -/
theorem c5_cluster_queries_witness :
    (∀ s ∈ [c3serpA, c3serpB], s.q ≠ "") ∧ (1 : ℚ) ≤ 5 ∧ (5 : ℚ) ≤ 10 ∧
    (((assembleClusters [c3serpA, c3serpB] 5 none).map Cluster.queries).flatten).Perm
      ([c3serpA, c3serpB].map SerpResult.q) := by
  have hok : clusterBySerpSimilarity [c3serpA, c3serpB] 5 none =
      Except.ok (assembleClusters [c3serpA, c3serpB] 5 none) := by
    unfold clusterBySerpSimilarity
    rw [if_neg (by simp), if_neg (by norm_num)]
  exact ⟨by decide, by norm_num, by norm_num,
    c5_cluster_queries_partition [c3serpA, c3serpB] 5 none _ (by decide) (by norm_num)
      (by norm_num) hok⟩

/-- Witness for C6: the monotonicity theorem applied at a concrete two-query
input with thresholds `2 ≤ 9`. -/
theorem c6_cluster_count_witness :
    (1 : ℚ) ≤ 2 ∧ (2 : ℚ) ≤ 9 ∧ (9 : ℚ) ≤ 10 ∧
    (assembleClusters [c3serpA, c3serpB] 2 none).length ≤
      (assembleClusters [c3serpA, c3serpB] 9 none).length := by
  have hok1 : clusterBySerpSimilarity [c3serpA, c3serpB] 2 none =
      Except.ok (assembleClusters [c3serpA, c3serpB] 2 none) := by
    unfold clusterBySerpSimilarity
    rw [if_neg (by simp), if_neg (by norm_num)]
  have hok2 : clusterBySerpSimilarity [c3serpA, c3serpB] 9 none =
      Except.ok (assembleClusters [c3serpA, c3serpB] 9 none) := by
    unfold clusterBySerpSimilarity
    rw [if_neg (by simp), if_neg (by norm_num)]
  exact ⟨by norm_num, by norm_num, by norm_num,
    c6_cluster_count_monotone [c3serpA, c3serpB] 2 9 none _ _ (by norm_num) (by norm_num)
      (by norm_num) hok1 hok2⟩

end QueryFanout

